import Mathlib

/-!
Verification of the object-tree dispatch engine of `src/libsystemd-bus/bus-objects.c`.

The development is a shallow embedding of the C source: intrusive linked lists
become Lean lists, the node hashmap becomes a derived membership predicate over
the flat registration lists, user callbacks become effect oracles (a function
from a handler identity to a first-order description of the registration calls
it performs plus its return code), and the wire-message builder becomes a pure
accumulator of abstract reply events.  Functions keep the names of the C
functions they embed.  External collaborators that are not part of the
repository source (the message codec, `bus_maybe_reply_error`,
`sd_bus_error_setf`, the name/signature validators) are modelled from the
specification's description of their contracts; each such definition carries a
comment saying so.
-/

namespace BusObjects

/-! ## Errno values and protocol string constants -/

def EINVAL : Int := 22
def ENOENT : Int := 2
def EDOM : Int := 33
def EACCES : Int := 13
def EEXIST : Int := 17

def CAP_SYS_ADMIN : Nat := 21

def ifaceProperties : String := "org.freedesktop.DBus.Properties"
def ifaceIntrospectable : String := "org.freedesktop.DBus.Introspectable"
def ifaceObjectManager : String := "org.freedesktop.DBus.ObjectManager"
def memberGet : String := "Get"
def memberSet : String := "Set"
def memberIntrospect : String := "Introspect"
def memberGetManagedObjects : String := "GetManagedObjects"
def unknownMethodName : String := "org.freedesktop.DBus.Error.UnknownMethod"
def unknownPropertyName : String := "org.freedesktop.DBus.Error.UnknownProperty"
def invalidArgsName : String := "org.freedesktop.DBus.Error.InvalidArgs"
def accessDeniedName : String := "org.freedesktop.DBus.Error.AccessDenied"
def asSignature : String := "as"
def rootPath : String := "/"

/-! ## Object paths

`OBJECT_PATH_FOREACH_PREFIX` iterates the proper ancestor paths of an object
path, longest first, down to the root `/` (and nothing at all for `/` itself).
`object_path_startswith` tests for a prefix at a component boundary.  Both live
in headers outside `src/`; they are modelled from the spec's path grammar
(`/` or `/segment(/segment)*`). -/

def splitSlash : List Char → List (List Char)
  | [] => [[]]
  | c :: rest =>
    let r := splitSlash rest
    if c = '/' then [] :: r
    else
      match r with
      | [] => [[c]]
      | h :: t => (c :: h) :: t

def joinPath (parts : List (List Char)) : String :=
  String.mk (parts.foldl (fun acc p => acc ++ '/' :: p) [])

def pathPrefixes (p : String) : List String :=
  if p = rootPath then []
  else
    let parts := (splitSlash p.toList).drop 1
    (List.range parts.length).reverse.map
      (fun k => if k = 0 then rootPath else joinPath (parts.take k))

def objectPathStartswith (path pfx : String) : Bool :=
  if pfx = rootPath then true
  else path == pfx || (pfx.toList ++ ['/']).isPrefixOf path.toList

/-! ## Access check (`check_access`, bus-objects.c lines 269-325)

Credentials are the result of `sd_bus_query_sender_creds`: either a negative
errno or a credential record whose `hasCap` field answers
`sd_bus_creds_has_effective_cap` and whose `uid` field is the result of
`sd_bus_creds_get_uid` (`none` when the uid is unavailable).  Whether the bus
is kernel-mediated only selects the credential mask requested; the model takes
the query result for the appropriate mask directly, so `isKernel` does not
appear separately. -/

structure CredsM where
  hasCap : Nat → Bool
  uid : Option Nat

structure SdBus where
  trusted : Bool
  queryCreds : Except Int CredsM
  processUid : Nat

/-- Member data consulted by the access check: the `UNPRIVILEGED` flag, the
member's 16-bit capability field (`CAPABILITY_SHIFT(c->vtable->flags)` before
masking) and the interface START entry's capability field
(`CAPABILITY_SHIFT(c->parent->vtable[0].flags)`). -/
structure VMemberA where
  unprivileged : Bool
  capTag : Nat
  startCapTag : Nat

structure AccessResult where
  r : Int
  errorName : Option String
deriving DecidableEq

/-- Modelled from the spec (sect. 7, error handling): `sd_bus_error_setf`
(bus-error.c, not under `src/`) records the named error in the error object and
returns the negative errno corresponding to the name; for `ACCESS_DENIED` that
is `-EACCES`.  The in-source caller `method_callbacks_run` relies on the
negative return (`if (r < 0) return bus_maybe_reply_error(...)`) to turn the
denial into the `ACCESS_DENIED` reply the spec mandates. -/
def sd_bus_error_setf (name : String) : AccessResult :=
  AccessResult.mk (-EACCES) (some name)

/-- Embeds the capability computation of `check_access`:
`cap = CAPABILITY_SHIFT(member); if 0 take the START entry's field; if still 0
use CAP_SYS_ADMIN, otherwise subtract one.`  `% 65536` mirrors the
`& 0xFFFF` mask of `CAPABILITY_SHIFT`. -/
def requiredCap (mt st : Nat) : Nat :=
  let cap1 := mt % 65536
  let cap2 := if cap1 = 0 then st % 65536 else cap1
  if cap2 = 0 then CAP_SYS_ADMIN else cap2 - 1

def check_access (bus : SdBus) (c : VMemberA) : AccessResult :=
  if bus.trusted then AccessResult.mk 0 none
  else if c.unprivileged then AccessResult.mk 0 none
  else
    match bus.queryCreds with
    | Except.error e => AccessResult.mk e none
    | Except.ok cr =>
      let cap := requiredCap c.capTag c.startCapTag
      if cr.hasCap cap then AccessResult.mk 1 none
      else
        match cr.uid with
        | some u =>
          if u = bus.processUid then AccessResult.mk 1 none
          else sd_bus_error_setf accessDeniedName
        | none => sd_bus_error_setf accessDeniedName

/-! ## Vtable entry validation (`add_object_vtable_internal`, lines 1595-1777)

The name/signature validators (`member_name_is_valid`, `signature_is_valid`,
`signature_is_single`, `bus_type_is_basic`) are external collaborators the spec
declares out of scope; they are abstract parameters here.  `sigHead s` reads
`signature[0]` as the C code does. -/

structure VFlags where
  hidden : Bool
  unprivileged : Bool
  methodNoReply : Bool
  emitsChange : Bool
  invalidateOnly : Bool
  capTag : Nat
deriving DecidableEq

inductive VEntry where
  | method (member sig result : String) (hasHandler : Bool) (flags : VFlags)
  | property (member sig : String) (hasGet : Bool) (flags : VFlags)
  | writableProperty (member sig : String) (hasGet hasSet : Bool) (flags : VFlags)
  | signalEntry (member sig : String) (flags : VFlags)
deriving DecidableEq

structure Validators where
  memberValid : String → Bool
  signatureValid : String → Bool
  signatureSingle : String → Bool
  basicType : Char → Bool

def sigHead (s : String) : Char := s.toList.headD ' '

/-- The `_SD_BUS_VTABLE_METHOD` case of the validation loop. -/
def method_entry_ok (V : Validators) (mem sig result : String) (hasHandler : Bool)
    (f : VFlags) : Bool :=
  V.memberValid mem && V.signatureValid sig && V.signatureValid result &&
  (hasHandler || (sig.isEmpty && result.isEmpty)) &&
  !(f.emitsChange || f.invalidateOnly)

/-- The extra `_SD_BUS_VTABLE_WRITABLE_PROPERTY` precheck before the
fall-through into the common property case. -/
def writable_precheck (V : Validators) (hasSet : Bool) (sig : String) : Bool :=
  hasSet || V.basicType (sigHead sig)

/-- The common `_SD_BUS_VTABLE_PROPERTY` / `_SD_BUS_VTABLE_WRITABLE_PROPERTY`
checks (`isWritable` records which constructor fell through, for the final
`UNPRIVILEGED && type == _SD_BUS_VTABLE_PROPERTY` clause). -/
def property_common_ok (V : Validators) (isWritable : Bool) (mem sig : String)
    (hasGet : Bool) (f : VFlags) : Bool :=
  V.memberValid mem && V.signatureSingle sig &&
  (hasGet || V.basicType (sigHead sig) || sig == asSignature) &&
  !f.methodNoReply &&
  !(f.invalidateOnly && !f.emitsChange) &&
  !(f.unprivileged && !isWritable)

/-- The `_SD_BUS_VTABLE_SIGNAL` case of the validation loop. -/
def signal_entry_ok (V : Validators) (mem sig : String) (f : VFlags) : Bool :=
  V.memberValid mem && V.signatureValid sig && !f.unprivileged

/-- The entry-validation walk of `add_object_vtable_internal`.  `seenM` and
`seenP` model the keys already inserted into the method and property member
hashmaps during this registration (the path and interface components of the
key are fixed here, so a collision is a repeated member name of the same kind);
`hashmap_put` on a present key fails with `-EEXIST` and aborts the
registration. -/
def add_object_vtable_validate (V : Validators) :
    List VEntry → List String → List String → Except Int Unit
  | [], _, _ => Except.ok ()
  | VEntry.method mem sig result hh f :: rest, seenM, seenP =>
    if !(method_entry_ok V mem sig result hh f) then Except.error (-EINVAL)
    else if seenM.contains mem then Except.error (-EEXIST)
    else add_object_vtable_validate V rest (mem :: seenM) seenP
  | VEntry.property mem sig hg f :: rest, seenM, seenP =>
    if !(property_common_ok V false mem sig hg f) then Except.error (-EINVAL)
    else if seenP.contains mem then Except.error (-EEXIST)
    else add_object_vtable_validate V rest seenM (mem :: seenP)
  | VEntry.writableProperty mem sig hg hs f :: rest, seenM, seenP =>
    if !(writable_precheck V hs sig) then Except.error (-EINVAL)
    else if !(property_common_ok V true mem sig hg f) then Except.error (-EINVAL)
    else if seenP.contains mem then Except.error (-EEXIST)
    else add_object_vtable_validate V rest seenM (mem :: seenP)
  | VEntry.signalEntry mem sig f :: rest, seenM, seenP =>
    if !(signal_entry_ok V mem sig f) then Except.error (-EINVAL)
    else add_object_vtable_validate V rest seenM seenP

/-- Spec-side predicate: the conjunction of conditions claim C8 states for a
`PROPERTY`/`WRITABLE_PROPERTY` entry (true for other entry kinds). -/
def property_claim_ok (V : Validators) : VEntry → Bool
  | VEntry.property mem sig hg f =>
    V.memberValid mem && V.signatureSingle sig &&
    (hg || V.basicType (sigHead sig) || sig == asSignature) &&
    !f.methodNoReply && (!f.invalidateOnly || f.emitsChange) && !f.unprivileged
  | VEntry.writableProperty mem sig hg hs f =>
    V.memberValid mem && V.signatureSingle sig &&
    (hg || V.basicType (sigHead sig) || sig == asSignature) &&
    (hs || V.basicType (sigHead sig)) &&
    !f.methodNoReply && (!f.invalidateOnly || f.emitsChange)
  | _ => true

/-- The non-property entry kinds pass their own validation checks. -/
def other_entry_ok (V : Validators) : VEntry → Bool
  | VEntry.method mem sig result hh f => method_entry_ok V mem sig result hh f
  | VEntry.signalEntry mem sig f => signal_entry_ok V mem sig f
  | _ => true

def vtableMethodNames : List VEntry → List String
  | [] => []
  | VEntry.method mem _ _ _ _ :: rest => mem :: vtableMethodNames rest
  | _ :: rest => vtableMethodNames rest

def vtablePropNames : List VEntry → List String
  | [] => []
  | VEntry.property mem _ _ _ :: rest => mem :: vtablePropNames rest
  | VEntry.writableProperty mem _ _ _ _ :: rest => mem :: vtablePropNames rest
  | _ :: rest => vtablePropNames rest

/-! ## Child enumeration and GetManagedObjects (lines 96-224, 1068-1150)

A `NodeT` is one node of the tree: its path, its enumerators (each modelled by
the child list its callback returns successfully), its static children, the
`is_fallback` flags of the vtables attached to it, and the object-manager
marker.  `object_path_is_valid` is an external validator and stays abstract.
The message operations (`new_method_return`, `open_container`, `close`,
`send`) follow the library convention of returning 0 on success; the model's
message builder cannot fail, and the second component of the result records
whether a reply was sent.  `ancestorOM` stands for
`bus_node_with_object_manager` recursing through `n->parent`. -/

inductive NodeT where
  | node (path : String) (enums : List (List String)) (children : List NodeT)
      (vtableFallbacks : List Bool) (objectManager : Bool)

def nodePath : NodeT → String
  | NodeT.node p _ _ _ _ => p

def nodeEnums : NodeT → List (List String)
  | NodeT.node _ e _ _ _ => e

def nodeChildren : NodeT → List NodeT
  | NodeT.node _ _ c _ _ => c

def nodeVtFallbacks : NodeT → List Bool
  | NodeT.node _ _ _ v _ => v

def nodeOM : NodeT → Bool
  | NodeT.node _ _ _ _ o => o

def bus_node_with_object_manager (n : NodeT) (ancestorOM : Bool) : Bool :=
  nodeOM n || ancestorOM

/-- `set_consume` into the string set (duplicates ignored, `-EEXIST` mapped
to 0 by the caller). -/
def setConsume (s : List String) (x : String) : List String :=
  if s.contains x then s else s ++ [x]

/-- The `STRV_FOREACH(k, children)` loop of `add_enumerated_to_set`, with its
carried `r`: once `r` is negative the remaining entries are skipped, an
invalid object path sets `r = -EINVAL`, a path outside the prefix is dropped,
and a successful `set_consume` resets `r` to a non-negative value. -/
def strvConsume (validPath : String → Bool) (pfx : String) :
    List String → Int → List String → Int × List String
  | [], r, s => (r, s)
  | k :: rest, r, s =>
    if r < 0 then strvConsume validPath pfx rest r s
    else if !(validPath k) then strvConsume validPath pfx rest (-EINVAL) s
    else if !(objectPathStartswith k pfx) then strvConsume validPath pfx rest r s
    else strvConsume validPath pfx rest 0 (setConsume s k)

def add_enumerated_to_set (validPath : String → Bool) (pfx : String) :
    List (List String) → List String → Except Int (List String)
  | [], s => Except.ok s
  | children :: rest, s =>
    let rs := strvConsume validPath pfx children 0 s
    if rs.1 < 0 then Except.error rs.1
    else add_enumerated_to_set validPath pfx rest rs.2

mutual
def add_subtree_to_set (validPath : String → Bool) (pfx : String) :
    NodeT → List String → Except Int (List String)
  | NodeT.node _ enums children _ _, s =>
    match add_enumerated_to_set validPath pfx enums s with
    | Except.error e => Except.error e
    | Except.ok s1 => add_children_to_set validPath pfx children s1

def add_children_to_set (validPath : String → Bool) (pfx : String) :
    List NodeT → List String → Except Int (List String)
  | [], s => Except.ok s
  | i :: rest, s =>
    if !(objectPathStartswith (nodePath i) pfx) then
      add_children_to_set validPath pfx rest s
    else
      match add_subtree_to_set validPath pfx i (setConsume s (nodePath i)) with
      | Except.error e => Except.error e
      | Except.ok s2 => add_children_to_set validPath pfx rest s2
end

def get_child_nodes (validPath : String → Bool) (pfx : String) (n : NodeT) :
    Except Int (List String) :=
  add_subtree_to_set validPath pfx n []

/-- The vtable scan of `process_get_managed_objects` taken when the child set
is empty.  `r` is the stale value left over from the preceding
`sd_bus_message_open_container` call: the loop body tests `r` without ever
assigning it, so with `r = 0` every iteration hits `if (r == 0) continue` and
`empty` is never cleared. -/
def gmo_vtable_scan (rf : Bool) (r : Int) : List Bool → Except Int Bool
  | [] => Except.ok true
  | fb :: rest =>
    if rf && !fb then gmo_vtable_scan rf r rest
    else if r < 0 then Except.error r
    else if r == 0 then gmo_vtable_scan rf r rest
    else Except.ok false

/-- `process_get_managed_objects`.  `serialize` abstracts the
`SET_FOREACH`/`object_manager_serialize_path_and_fallbacks` fold over a
non-empty child set (negative means a serialization error); `nmf` is
`bus->nodes_modified`.  The result is the return value paired with whether the
reply message was sent. -/
def process_get_managed_objects (validPath : String → Bool)
    (serialize : List String → Int) (nmf : Bool) (n : NodeT) (ancestorOM : Bool)
    (rf : Bool) (mpath : String) : Int × Bool :=
  if !(bus_node_with_object_manager n ancestorOM) then (0, false)
  else
    match get_child_nodes validPath mpath n with
    | Except.error e => (e, false)
    | Except.ok s =>
      if nmf then (0, false)
      else
        let r0 : Int := 0
        if s.isEmpty then
          match gmo_vtable_scan rf r0 (nodeVtFallbacks n) with
          | Except.error e => (e, false)
          | Except.ok stillEmpty => if stillEmpty then (0, false) else (1, true)
        else
          let rs := serialize s
          if rs < 0 then (rs, false)
          else if nmf then (0, false)
          else (1, true)

/-! ## The dispatch engine (lines 226-1332, 1414-1520)

State model.  The C bus keeps a path-keyed node hashmap whose nodes own
intrusive lists of callbacks and vtables, plus two member-index hashmaps.  The
model flattens this: `callbacks` is the list of all registered node callbacks
(registration prepends, so the per-node sublist in list order equals the C
per-node list), `vtables` the registered vtables, `members` the method member
index (`bus->vtable_methods`; the key is the (path, interface, member) triple
carried by each record), `props` the property member index, and
`enumPaths`/`omPaths` the paths carrying enumerators / the object-manager
marker.  A node exists in the C hashmap exactly when it anchors some
registration (registration allocates the ancestor chain, garbage collection
removes empty unanchored nodes), which `nodeAnchored` derives.

Handler identities are `HId` values; the behaviour of a user handler is an
oracle `act : HId → EffectB` giving the registration calls the handler makes
(first-order `RegOpB` data applied through the public-API semantics) and its
return code / error-object flag.  Reply messages are abstract `Sent` events.
`find` resolvers are pure functions from the dispatch path to the
`sd_bus_object_find_t` result code and never set the error object. -/

inductive Sent where
  | errorReply (name : String)
  | handlerErrorReply
  | methodReturn
deriving DecidableEq

inductive HId where
  | cbH (i : Nat)
  | mbH (i : Nat)
deriving DecidableEq

structure CB where
  path : String
  id : Nat
  isFallback : Bool
  lastIteration : Nat

structure VT where
  path : String
  vid : Nat
  interface : String
  isFallback : Bool
  find : Option (String → Int)
  startCapTag : Nat

structure MB where
  path : String
  interface : String
  member : String
  id : Nat
  signature : String
  hasHandler : Bool
  capTag : Nat
  unprivileged : Bool
  parentVid : Nat
  lastIteration : Nat

/-- A property member index record (`bus->vtable_properties`).  `getRet` and
`value` abstract what `invoke_property_get` does for this property: its return
code and the value it appends to the message. -/
structure PB where
  path : String
  interface : String
  member : String
  parentVid : Nat
  emitsChange : Bool
  invalidateOnly : Bool
  getRet : Int
  value : Nat
deriving DecidableEq

structure BusB where
  callbacks : List CB
  vtables : List VT
  members : List MB
  props : List PB
  enumPaths : List String
  omPaths : List String
  nodesModified : Bool
  iterationCounter : Nat
  trusted : Bool
  queryCreds : Except Int CredsM
  processUid : Nat

structure MDesc where
  id : Nat
  member : String
  signature : String
  hasHandler : Bool
  capTag : Nat
  unprivileged : Bool

inductive RegOpB where
  | addCallback (path : String) (id : Nat) (isFallback : Bool)
  | removeCallback (path : String) (id : Nat) (isFallback : Bool)
  | addVtable (path : String) (vid : Nat) (interface : String) (isFallback : Bool)
      (find : Option (String → Int)) (startCapTag : Nat) (ms : List MDesc)
  | removeVtable (path : String) (vid : Nat)
  | addEnumerator (path : String)
  | removeEnumerator (path : String)
  | addObjectManager (path : String)
  | removeObjectManager (path : String)

structure EffectB where
  ops : List RegOpB
  ret : Int
  errSet : Bool

structure Msg where
  isMethodCall : Bool
  path : String
  interface : Option String
  member : Option String
  signature : String

/-- Registration-call semantics, matching the public API of bus-objects.c
(list position of a newly inserted vtable is irrelevant to everything the
model evaluates, so vtables are prepended).  Failing structural checks
(`-EPROTOTYPE` fallback mixing, `-EEXIST` duplicates) leave the bus unchanged
exactly as the `fail:` paths do; every successful mutation sets
`nodes_modified`. -/
def applyOp (b : BusB) : RegOpB → BusB
  | RegOpB.addCallback p i fb =>
    { b with callbacks := CB.mk p i fb 0 :: b.callbacks, nodesModified := true }
  | RegOpB.removeCallback p i fb =>
    if b.callbacks.any (fun c => c.path == p && c.id == i && c.isFallback == fb) then
      { b with
        callbacks := b.callbacks.eraseP
          (fun c => c.path == p && c.id == i && c.isFallback == fb),
        nodesModified := true }
    else b
  | RegOpB.addVtable p vid intf fb fnd st ms =>
    let nodeVts := b.vtables.filter (fun w => w.path == p)
    if nodeVts.any (fun w => w.isFallback != fb) then b
    else if nodeVts.any (fun w => w.interface == intf && w.vid == vid) then b
    else if !(ms.map MDesc.member).Nodup then b
    else if ms.any (fun md => b.members.any
        (fun mb => mb.path == p && mb.interface == intf && mb.member == md.member)) then b
    else
      { b with
        vtables := VT.mk p vid intf fb fnd st :: b.vtables,
        members := ms.map (fun md =>
          MB.mk p intf md.member md.id md.signature md.hasHandler md.capTag
            md.unprivileged vid 0) ++ b.members,
        nodesModified := true }
  | RegOpB.removeVtable p vid =>
    if b.vtables.any (fun w => w.path == p && w.vid == vid) then
      { b with
        vtables := b.vtables.eraseP (fun w => w.path == p && w.vid == vid),
        members := b.members.filter (fun mb => !(mb.path == p && mb.parentVid == vid)),
        nodesModified := true }
    else b
  | RegOpB.addEnumerator p =>
    { b with enumPaths := p :: b.enumPaths, nodesModified := true }
  | RegOpB.removeEnumerator p =>
    if b.enumPaths.contains p then
      { b with enumPaths := b.enumPaths.erase p, nodesModified := true }
    else b
  | RegOpB.addObjectManager p =>
    { b with
      omPaths := if b.omPaths.contains p then b.omPaths else p :: b.omPaths,
      nodesModified := true }
  | RegOpB.removeObjectManager p =>
    if b.omPaths.contains p then
      { b with omPaths := b.omPaths.erase p, nodesModified := true }
    else b

def applyOps (b : BusB) (ops : List RegOpB) : BusB :=
  ops.foldl applyOp b

/-- Whether the node hashmap contains `p`: some registration's path has `p` on
its ancestor chain (`bus_node_allocate` creates the chain, `bus_node_gc`
removes nodes that no longer anchor anything). -/
def nodeAnchored (b : BusB) (p : String) : Bool :=
  b.callbacks.any (fun c => objectPathStartswith c.path p) ||
  b.vtables.any (fun v => objectPathStartswith v.path p) ||
  b.enumPaths.any (fun q => objectPathStartswith q p) ||
  b.omPaths.any (fun q => objectPathStartswith q p)

def busNodesEmpty (b : BusB) : Bool :=
  b.callbacks.isEmpty && b.vtables.isEmpty && b.enumPaths.isEmpty && b.omPaths.isEmpty

/-- `node_vtable_get_userdata` (lines 34-63) for a `find` resolver that does
not set the error object: negative is propagated, 0 means not found, anything
else resolves. -/
def node_vtable_get_userdata (c : VT) (path : String) : Int :=
  match c.find with
  | none => 1
  | some f =>
    let r := f path
    if r < 0 then r else if r == 0 then 0 else 1

/-- `bus_node_exists` (lines 769-805); `p` locates the node, `mpath` is the
message path handed to the `find` resolvers. -/
def bus_node_exists (b : BusB) (p mpath : String) (rf : Bool) : Bool :=
  (b.callbacks.filter (fun c => c.path == p)).any (fun k => !(rf && !k.isFallback)) ||
  (b.vtables.filter (fun v => v.path == p)).any
    (fun c => !(rf && !c.isFallback) && decide (0 < node_vtable_get_userdata c mpath)) ||
  (!rf && (b.enumPaths.contains p || b.omPaths.contains p))

/-- Modelled from the spec (sect. 4.11, sect. 7): `bus_maybe_reply_error`
(bus-util, not under `src/`) turns a handler failure (negative return, or an
error object left set) into a method-error reply and reports the call as
handled (1); otherwise it passes the handler's return through unchanged. -/
def bus_maybe_reply_error (r : Int) (errSet : Bool) : Int × List Sent :=
  if r < 0 then (1, [Sent.handlerErrorReply])
  else if errSet then (1, [Sent.handlerErrorReply])
  else (r, [])

structure DispatchRes where
  r : Int
  bus : BusB
  found : Bool
  invoked : List HId
  sent : List Sent

def markCB (b : BusB) (i : Nat) : BusB :=
  let f := fun (c : CB) =>
    if c.id == i then { c with lastIteration := b.iterationCounter } else c
  { b with callbacks := b.callbacks.map f }

def markMB (b : BusB) (i : Nat) : BusB :=
  let f := fun (v : MB) =>
    if v.id == i then { v with lastIteration := b.iterationCounter } else v
  { b with members := b.members.map f }

/-- `node_callbacks_run` (lines 226-267) over the snapshot of the node's
callback list.  The current `last_iteration` of the callback object is re-read
from the live bus (`b.callbacks.find?`); a snapshot entry no longer present
live is skipped, which the C code never reaches because every removal sets
`nodes_modified` and the loop head aborts first. -/
def node_callbacks_run (act : HId → EffectB) (b : BusB) (rf : Bool) (found : Bool) :
    List CB → DispatchRes
  | [] => DispatchRes.mk 0 b found [] []
  | c :: rest =>
    if b.nodesModified then DispatchRes.mk 0 b found [] []
    else if rf && !c.isFallback then node_callbacks_run act b rf found rest
    else
      match b.callbacks.find? (fun x => x.id == c.id) with
      | none => node_callbacks_run act b rf true rest
      | some cc =>
        if cc.lastIteration == b.iterationCounter then
          node_callbacks_run act b rf true rest
        else
          let b1 := markCB b c.id
          let e := act (HId.cbH c.id)
          let b2 := applyOps b1 e.ops
          let rs := bus_maybe_reply_error e.ret e.errSet
          if rs.1 != 0 then DispatchRes.mk rs.1 b2 true [HId.cbH c.id] rs.2
          else
            let d := node_callbacks_run act b2 rf true rest
            DispatchRes.mk d.r d.bus d.found (HId.cbH c.id :: d.invoked) (rs.2 ++ d.sent)

def lookupMethod (b : BusB) (p intf memb : String) : Option MB :=
  b.members.find? (fun mb => mb.path == p && mb.interface == intf && mb.member == memb)

/-- `method_callbacks_run` (lines 327-395).  The member's parent vtable is
resolved through the index record's back-pointer (`c->parent`); the signature
comparison is against `strempty(c->vtable->x.method.signature)`, and a NULL
handler replies with an empty successful return. -/
def method_callbacks_run (act : HId → EffectB) (b : BusB) (m : Msg) (v : MB)
    (rf : Bool) (found : Bool) : DispatchRes :=
  match b.vtables.find? (fun w => w.path == v.path && w.vid == v.parentVid) with
  | none => DispatchRes.mk 0 b found [] []
  | some pv =>
    if rf && !pv.isFallback then DispatchRes.mk 0 b found [] []
    else
      let ar := check_access (SdBus.mk b.trusted b.queryCreds b.processUid)
        (VMemberA.mk v.unprivileged v.capTag pv.startCapTag)
      if ar.r < 0 then
        let rs := bus_maybe_reply_error ar.r ar.errorName.isSome
        DispatchRes.mk rs.1 b found [] rs.2
      else
        let gu := node_vtable_get_userdata pv m.path
        if gu ≤ 0 then
          let rs := bus_maybe_reply_error gu false
          DispatchRes.mk rs.1 b found [] rs.2
        else if b.nodesModified then DispatchRes.mk 0 b found [] []
        else if v.lastIteration == b.iterationCounter then DispatchRes.mk 0 b true [] []
        else
          let b1 := markMB b v.id
          if v.signature != m.signature then
            DispatchRes.mk 1 b1 true [] [Sent.errorReply invalidArgsName]
          else if v.hasHandler then
            let e := act (HId.mbH v.id)
            let b2 := applyOps b1 e.ops
            let rs := bus_maybe_reply_error e.ret e.errSet
            DispatchRes.mk rs.1 b2 true [HId.mbH v.id] rs.2
          else DispatchRes.mk 1 b1 true [] [Sent.methodReturn]

/-- The three standard-interface branches of `object_find_and_run`
(Properties Get/Set/GetAll, Introspect, GetManagedObjects) as oracle
parameters: the surrounding control flow is embedded, their bodies are
abstract. -/
structure StdHandlers where
  props : BusB → Msg → String → Bool → Bool → DispatchRes
  introspect : BusB → Msg → String → Bool → Bool → DispatchRes
  managed : BusB → Msg → String → Bool → Bool → DispatchRes

def std_branch (std : StdHandlers) (b : BusB) (m : Msg) (p : String) (rf : Bool)
    (found : Bool) (intf memb : String) : DispatchRes :=
  if intf == ifaceProperties then std.props b m p rf found
  else if intf == ifaceIntrospectable && memb == memberIntrospect then
    if m.signature != "" then
      DispatchRes.mk 1 b found [] [Sent.errorReply invalidArgsName]
    else std.introspect b m p rf found
  else if intf == ifaceObjectManager && memb == memberGetManagedObjects then
    if m.signature != "" then
      DispatchRes.mk 1 b found [] [Sent.errorReply invalidArgsName]
    else std.managed b m p rf found
  else DispatchRes.mk 0 b found [] []

/-- `object_find_and_run` (lines 1152-1271). -/
def object_find_and_run (act : HId → EffectB) (std : StdHandlers) (b : BusB)
    (m : Msg) (p : String) (rf : Bool) (found : Bool) : DispatchRes :=
  if !(nodeAnchored b p) then DispatchRes.mk 0 b found [] []
  else
    let d1 := node_callbacks_run act b rf found (b.callbacks.filter (fun c => c.path == p))
    if d1.r != 0 then d1
    else if d1.bus.nodesModified then DispatchRes.mk 0 d1.bus d1.found d1.invoked d1.sent
    else
      match m.interface, m.member with
      | some intf, some memb =>
        let d2 :=
          match lookupMethod d1.bus p intf memb with
          | some v =>
            let r2 := method_callbacks_run act d1.bus m v rf d1.found
            DispatchRes.mk r2.r r2.bus r2.found (d1.invoked ++ r2.invoked)
              (d1.sent ++ r2.sent)
          | none => d1
        if d2.r != 0 then d2
        else if d2.bus.nodesModified then
          DispatchRes.mk 0 d2.bus d2.found d2.invoked d2.sent
        else
          let sb := std_branch std d2.bus m p rf d2.found intf memb
          let d3 := DispatchRes.mk sb.r sb.bus sb.found (d2.invoked ++ sb.invoked)
            (d2.sent ++ sb.sent)
          if d3.r != 0 then d3
          else if d3.bus.nodesModified then
            DispatchRes.mk 0 d3.bus d3.found d3.invoked d3.sent
          else if !d3.found then
            if bus_node_exists d3.bus p m.path rf then
              DispatchRes.mk 0 d3.bus true d3.invoked d3.sent
            else DispatchRes.mk 0 d3.bus false d3.invoked d3.sent
          else DispatchRes.mk 0 d3.bus d3.found d3.invoked d3.sent
      | _, _ => DispatchRes.mk 0 d1.bus d1.found d1.invoked d1.sent

/-- The `OBJECT_PATH_FOREACH_PREFIX` fallback scan inside the dispatch loop of
`bus_process_object` (lines 1301-1309): break on `nodes_modified` at the top
of each iteration, return on any non-zero result. -/
def fallback_scan (act : HId → EffectB) (std : StdHandlers) (b : BusB) (m : Msg)
    (found : Bool) : List String → DispatchRes
  | [] => DispatchRes.mk 0 b found [] []
  | pfx :: rest =>
    if b.nodesModified then DispatchRes.mk 0 b found [] []
    else
      let d := object_find_and_run act std b m pfx true found
      if d.r != 0 then d
      else
        let e := fallback_scan act std d.bus m d.found rest
        DispatchRes.mk e.r e.bus e.found (d.invoked ++ e.invoked) (d.sent ++ e.sent)

/-- One attempt of the `do … while (bus->nodes_modified)` loop: clear the
flag, run the exact path, then the fallback prefixes. -/
def dispatch_attempt (act : HId → EffectB) (std : StdHandlers) (b : BusB)
    (m : Msg) (found : Bool) : DispatchRes :=
  let b0 := { b with nodesModified := false }
  let d := object_find_and_run act std b0 m m.path false found
  if d.r != 0 then d
  else
    let e := fallback_scan act std d.bus m d.found (pathPrefixes m.path)
    DispatchRes.mk e.r e.bus e.found (d.invoked ++ e.invoked) (d.sent ++ e.sent)

/-- The restart loop of `bus_process_object`, fueled; the Boolean reports
whether the loop exited (false = fuel exhausted while the tree kept being
modified).  `found_object` persists across restarts as in the source. -/
def process_loop (act : HId → EffectB) (std : StdHandlers) :
    Nat → BusB → Msg → Bool → DispatchRes × Bool
  | 0, b, _, found => (DispatchRes.mk 0 b found [] [], false)
  | Nat.succ fuel, b, m, found =>
    let d := dispatch_attempt act std b m found
    if d.r != 0 then (d, true)
    else if d.bus.nodesModified then
      let e := process_loop act std fuel d.bus m d.found
      (DispatchRes.mk e.1.r e.1.bus e.1.found (d.invoked ++ e.1.invoked)
        (d.sent ++ e.1.sent), e.2)
    else (d, true)

def is_properties_get_set (m : Msg) : Bool :=
  m.isMethodCall && m.interface == some ifaceProperties &&
  (m.member == some memberGet || m.member == some memberSet)

/-- The tail of `bus_process_object` (lines 1311-1331): with everything
returning 0, reply `UNKNOWN_PROPERTY` / `UNKNOWN_METHOD` only when
`found_object` was reported, else return 0 silently. -/
def process_tail (m : Msg) (d : DispatchRes) : DispatchRes :=
  if d.r != 0 then d
  else if !d.found then DispatchRes.mk 0 d.bus d.found d.invoked d.sent
  else if is_properties_get_set m then
    DispatchRes.mk 1 d.bus d.found d.invoked (d.sent ++ [Sent.errorReply unknownPropertyName])
  else
    DispatchRes.mk 1 d.bus d.found d.invoked (d.sent ++ [Sent.errorReply unknownMethodName])

/-- `bus_process_object` (lines 1273-1332). -/
def bus_process_object (act : HId → EffectB) (std : StdHandlers) (fuel : Nat)
    (b : BusB) (m : Msg) : DispatchRes × Bool :=
  if !m.isMethodCall then (DispatchRes.mk 0 b false [] [], true)
  else if busNodesEmpty b then (DispatchRes.mk 0 b false [] [], true)
  else
    let e := process_loop act std fuel b m false
    if e.2 then (process_tail m e.1, true) else (e.1, false)

/-- `bus_add_object` (lines 1414-1454): validate the path, allocate the node,
prepend the callback, set `nodes_modified`. -/
def bus_add_object (validPath : String → Bool) (b : BusB) (fallback : Bool)
    (p : String) (i : Nat) : Int × BusB :=
  if !(validPath p) then (-EINVAL, b)
  else (0, { b with callbacks := CB.mk p i fallback 0 :: b.callbacks,
                    nodesModified := true })

/-! ## PropertiesChanged emission (lines 1939-2144)

The signal message is modelled by the interface name, the `a{sv}` dictionary
of changed properties (name, abstract value) and the `as` array of invalidated
names.  `member_name_is_valid` stays an abstract validator.  The passes over
the node's vtable list and the name list mirror the two `LIST_FOREACH` /
`STRV_FOREACH` nests of `emit_properties_changed_on_interface`; the
`return 0` abort on `bus->nodes_modified` is encoded as `Except.error 0`
(real errors are negative).  The second pass's `assert_se` that the index
lookup succeeds, and its `assert` that the entry belongs to the current
vtable, guard states the source considers impossible; the model skips such
entries. -/

structure SigMsg where
  interface : String
  changed : List (String × Nat)
  invalidated : List String
deriving DecidableEq

def propFind (b : BusB) (pfx intf nm : String) : Option PB :=
  b.props.find? (fun pb => pb.path == pfx && pb.interface == intf && pb.member == nm)

def pass1Names (memberValid : String → Bool) (b : BusB) (pfx intf : String)
    (c : VT) : List String → Bool → Bool → List (String × Nat) →
    Except Int (Bool × Bool × List (String × Nat))
  | [], hi, hc, acc => Except.ok (hi, hc, acc)
  | nm :: rest, hi, hc, acc =>
    if !(memberValid nm) then Except.error (-EINVAL)
    else
      match propFind b pfx intf nm with
      | none => Except.error (-ENOENT)
      | some v =>
        if v.parentVid != c.vid then pass1Names memberValid b pfx intf c rest hi hc acc
        else if !v.emitsChange then Except.error (-EDOM)
        else if v.invalidateOnly then pass1Names memberValid b pfx intf c rest true hc acc
        else if v.getRet < 0 then Except.error v.getRet
        else if b.nodesModified then Except.error 0
        else pass1Names memberValid b pfx intf c rest hi true (acc ++ [(nm, v.value)])

def pass1Vts (memberValid : String → Bool) (b : BusB) (pfx path intf : String)
    (rf : Bool) (names : List String) : List VT → Bool → Bool → List (String × Nat) →
    Except Int (Bool × Bool × List (String × Nat))
  | [], hi, hc, acc => Except.ok (hi, hc, acc)
  | c :: rest, hi, hc, acc =>
    if rf && !c.isFallback then pass1Vts memberValid b pfx path intf rf names rest hi hc acc
    else if c.interface != intf then
      pass1Vts memberValid b pfx path intf rf names rest hi hc acc
    else
      let gu := node_vtable_get_userdata c path
      if gu < 0 then Except.error gu
      else if b.nodesModified then Except.error 0
      else if gu == 0 then pass1Vts memberValid b pfx path intf rf names rest hi hc acc
      else
        match pass1Names memberValid b pfx intf c names hi hc acc with
        | Except.error e => Except.error e
        | Except.ok (hi1, hc1, acc1) =>
          pass1Vts memberValid b pfx path intf rf names rest hi1 hc1 acc1

def pass2Names (b : BusB) (pfx intf : String) (c : VT) : List String → List String
  | [] => []
  | nm :: rest =>
    match propFind b pfx intf nm with
    | none => pass2Names b pfx intf c rest
    | some v =>
      if v.parentVid != c.vid then pass2Names b pfx intf c rest
      else if !v.invalidateOnly then pass2Names b pfx intf c rest
      else nm :: pass2Names b pfx intf c rest

def pass2Vts (b : BusB) (pfx path intf : String) (rf : Bool) (names : List String) :
    List VT → Except Int (List String)
  | [] => Except.ok []
  | c :: rest =>
    if rf && !c.isFallback then pass2Vts b pfx path intf rf names rest
    else if c.interface != intf then pass2Vts b pfx path intf rf names rest
    else
      let gu := node_vtable_get_userdata c path
      if gu < 0 then Except.error gu
      else if b.nodesModified then Except.error 0
      else if gu == 0 then pass2Vts b pfx path intf rf names rest
      else
        match pass2Vts b pfx path intf rf names rest with
        | Except.error e => Except.error e
        | Except.ok tl => Except.ok (pass2Names b pfx intf c names ++ tl)

/-- `emit_properties_changed_on_interface` (lines 1939-2102): returns the
result code and the signal that was sent, if any. -/
def emit_properties_changed_on_interface (memberValid : String → Bool) (b : BusB)
    (pfx path intf : String) (rf : Bool) (names : List String) : Int × Option SigMsg :=
  if !(nodeAnchored b pfx) then (0, none)
  else
    let vts := b.vtables.filter (fun v => v.path == pfx)
    match pass1Vts memberValid b pfx path intf rf names vts false false [] with
    | Except.error e => (e, none)
    | Except.ok (hi, hc, chg) =>
      if !hi && !hc then (0, none)
      else
        match (if hi then pass2Vts b pfx path intf rf names vts else Except.ok []) with
        | Except.error e => (e, none)
        | Except.ok inv => (1, some (SigMsg.mk intf chg inv))

/-- The fallback-prefix scan of `sd_bus_emit_properties_changed_strv`
(lines 2132-2139).  Returns the result code (0 when the scan fell through all
prefixes), the signals sent and the trace of per-prefix result codes. -/
def strv_fallback (memberValid : String → Bool) (b : BusB) (path intf : String)
    (names : List String) : List String → Int × List SigMsg × List Int
  | [] => (0, [], [])
  | pfx :: rest =>
    let p := emit_properties_changed_on_interface memberValid b pfx path intf true names
    if p.1 != 0 then (p.1, p.2.toList, [p.1])
    else if b.nodesModified then (0, p.2.toList, [p.1])
    else
      let t := strv_fallback memberValid b path intf names rest
      (t.1, p.2.toList ++ t.2.1, p.1 :: t.2.2)

/-- The `do … while (bus->nodes_modified)` retry loop of
`sd_bus_emit_properties_changed_strv` (lines 2123-2143), fueled (`none` means
the fuel ran out while the tree kept being modified).  The result carries the
final return code, the signals sent, and the trace of the per-call result
codes of `emit_properties_changed_on_interface`. -/
def strv_attempts (memberValid : String → Bool) (b : BusB) (path intf : String)
    (names : List String) : Nat → Option (Int × List SigMsg × List Int)
  | 0 => none
  | Nat.succ fuel =>
    let b0 := { b with nodesModified := false }
    let p1 := emit_properties_changed_on_interface memberValid b0 path path intf false names
    if p1.1 != 0 then some (p1.1, p1.2.toList, [p1.1])
    else if b0.nodesModified then
      (strv_attempts memberValid b0 path intf names fuel).map
        (fun t => (t.1, p1.2.toList ++ t.2.1, p1.1 :: t.2.2))
    else
      let t := strv_fallback memberValid b0 path intf names (pathPrefixes path)
      if t.1 != 0 then some (t.1, p1.2.toList ++ t.2.1, p1.1 :: t.2.2)
      else if b0.nodesModified then
        (strv_attempts memberValid b0 path intf names fuel).map
          (fun u => (u.1, p1.2.toList ++ t.2.1 ++ u.2.1, p1.1 :: t.2.2 ++ u.2.2))
      else some (-ENOENT, p1.2.toList ++ t.2.1, p1.1 :: t.2.2)

def sd_bus_emit_properties_changed_strv (memberValid : String → Bool) (fuel : Nat)
    (b : BusB) (path intf : String) (names : List String) :
    Option (Int × List SigMsg × List Int) :=
  if names.isEmpty then some (0, [], [])
  else strv_attempts memberValid b path intf names fuel

/-- Spec-side predicate for claim C2: some vtable at node `pfx` passes the
fallback filter, is registered for `intf`, and resolves its userdata — the
claim's notion of a vtable "producing a match". -/
def vtable_match_exists (b : BusB) (pfx path intf : String) (rf : Bool) : Bool :=
  nodeAnchored b pfx &&
  (b.vtables.filter (fun v => v.path == pfx)).any
    (fun c => !(rf && !c.isFallback) && c.interface == intf &&
      decide (0 < node_vtable_get_userdata c path))

/-- Spec-side description for claim C7 of the changed dictionary: the named
properties that are not `INVALIDATE_ONLY`, with their values, in name order. -/
def changedOf (b : BusB) (pfx intf : String) (names : List String) :
    List (String × Nat) :=
  names.filterMap (fun nm =>
    match propFind b pfx intf nm with
    | some pb => if !pb.invalidateOnly then some (nm, pb.value) else none
    | none => none)

/-- Spec-side description for claim C7 of the invalidated array: the named
properties carrying `INVALIDATE_ONLY`, by name only. -/
def invalidatedOf (b : BusB) (pfx intf : String) (names : List String) : List String :=
  names.filter (fun nm =>
    match propFind b pfx intf nm with
    | some pb => pb.invalidateOnly
    | none => false)

/-! ## Claims about the access check (C3, C4) -/

/-- C3, counterexample.  The claim states the encoding "allow is strictly
positive, deny is zero with the error object set, negative only on internal
error".  On a trusted bus the check allows the call (policy step 1, and the
caller `method_callbacks_run` proceeds to run the handler on any non-negative
return), yet `check_access` returns 0 with no error set — so an allowed call
yields zero, and zero does not come with an error object. -/
theorem c3_counterexample :
    check_access (SdBus.mk true (Except.ok (CredsM.mk (fun _ => false) none)) 0)
        (VMemberA.mk false 0 0) = AccessResult.mk 0 none ∧
    (0 : Int) ≤ 0 := by
  exact ⟨rfl, le_refl 0⟩

/-- C3, amended: `check_access` returns 0 with no error when the bus is
trusted or the member is `UNPRIVILEGED` (allow), 1 with no error when the
caller holds the required capability or matches the process UID (allow), the
negative query error when credentials cannot be obtained, and otherwise a
negative value (`-EACCES`) with the error object set to `ACCESS_DENIED`
(deny).  Allow is thus any non-negative return; deny is negative with the
error set. -/
theorem c3_theorem (bus : SdBus) (c : VMemberA) :
    (bus.trusted = true → check_access bus c = AccessResult.mk 0 none) ∧
    (bus.trusted = false → c.unprivileged = true →
      check_access bus c = AccessResult.mk 0 none) ∧
    (∀ e, bus.trusted = false → c.unprivileged = false →
      bus.queryCreds = Except.error e → check_access bus c = AccessResult.mk e none) ∧
    (∀ cr, bus.trusted = false → c.unprivileged = false →
      bus.queryCreds = Except.ok cr →
      ((cr.hasCap (requiredCap c.capTag c.startCapTag) = true ∨
          cr.uid = some bus.processUid) →
        check_access bus c = AccessResult.mk 1 none) ∧
      (cr.hasCap (requiredCap c.capTag c.startCapTag) = false →
        cr.uid ≠ some bus.processUid →
        check_access bus c = AccessResult.mk (-EACCES) (some accessDeniedName))) := by
  refine ⟨?_, ?_, ?_, ?_⟩
  · intro ht
    simp [check_access, ht]
  · intro ht hu
    simp [check_access, ht, hu]
  · intro e ht hu hq
    simp [check_access, ht, hu, hq]
  · intro cr ht hu hq
    constructor
    · intro h
      by_cases hcap : cr.hasCap (requiredCap c.capTag c.startCapTag) = true
      · simp [check_access, ht, hu, hq, hcap]
      · have hcf : cr.hasCap (requiredCap c.capTag c.startCapTag) = false := by
          simpa using hcap
        rcases h with h | h
        · exact absurd h hcap
        · simp [check_access, ht, hu, hq, hcf, h]
    · intro hcap huid
      cases hUid : cr.uid with
      | none => simp [check_access, ht, hu, hq, hcap, hUid, sd_bus_error_setf]
      | some u =>
        have hne : u ≠ bus.processUid := by
          intro h
          exact huid (by rw [hUid, h])
        simp [check_access, ht, hu, hq, hcap, hUid, hne, sd_bus_error_setf]

/-- C3, witness: a concrete denied call (untrusted bus, no capability, UID 5
against process UID 0) hits the deny clause of the amended theorem. -/
theorem c3_witness :
    (SdBus.mk false (Except.ok (CredsM.mk (fun _ => false) (some 5))) 0).trusted = false ∧
    check_access (SdBus.mk false (Except.ok (CredsM.mk (fun _ => false) (some 5))) 0)
        (VMemberA.mk false 0 0) = AccessResult.mk (-EACCES) (some accessDeniedName) :=
  ⟨rfl,
    ((c3_theorem (SdBus.mk false (Except.ok (CredsM.mk (fun _ => false) (some 5))) 0)
          (VMemberA.mk false 0 0)).2.2.2 (CredsM.mk (fun _ => false) (some 5))
        rfl rfl rfl).2 rfl (by decide)⟩

/-- C4: with the bus untrusted, the member not `UNPRIVILEGED`, and the
credential query succeeding, the required capability is the member's 16-bit
capability field minus one, falling back to the interface `START` entry's
field minus one when the member field is zero, and defaulting to
`CAP_SYS_ADMIN` when both are zero; the check returns allow (1) exactly when
the caller holds that effective capability or its UID equals the process's
UID, and otherwise denies with the `ACCESS_DENIED` error. -/
theorem c4_theorem (bus : SdBus) (c : VMemberA) (cr : CredsM)
    (ht : bus.trusted = false) (hu : c.unprivileged = false)
    (hq : bus.queryCreds = Except.ok cr) :
    requiredCap c.capTag c.startCapTag =
      (if c.capTag % 65536 ≠ 0 then c.capTag % 65536 - 1
       else if c.startCapTag % 65536 ≠ 0 then c.startCapTag % 65536 - 1
       else CAP_SYS_ADMIN) ∧
    ((check_access bus c).r = 1 ↔
      (cr.hasCap (requiredCap c.capTag c.startCapTag) = true ∨
        cr.uid = some bus.processUid)) ∧
    ((check_access bus c).r = 1 ∨
      check_access bus c = AccessResult.mk (-EACCES) (some accessDeniedName)) := by
  have hchar := c3_theorem bus c
  have hok := hchar.2.2.2 cr ht hu hq
  refine ⟨?_, ?_, ?_⟩
  · unfold requiredCap
    by_cases h1 : c.capTag % 65536 = 0
    · by_cases h2 : c.startCapTag % 65536 = 0
      · simp [h1, h2]
      · simp [h1, h2]
    · simp [h1]
  · constructor
    · intro hr
      by_cases hcap : cr.hasCap (requiredCap c.capTag c.startCapTag) = true
      · exact Or.inl hcap
      · by_cases huid : cr.uid = some bus.processUid
        · exact Or.inr huid
        · have hcf : cr.hasCap (requiredCap c.capTag c.startCapTag) = false := by
            simpa using hcap
          have := hok.2 hcf huid
          rw [this] at hr
          exact absurd hr (by simp [EACCES])
    · intro h
      rw [hok.1 h]
  · by_cases hcap : cr.hasCap (requiredCap c.capTag c.startCapTag) = true
    · exact Or.inl (by rw [hok.1 (Or.inl hcap)])
    · by_cases huid : cr.uid = some bus.processUid
      · exact Or.inl (by rw [hok.1 (Or.inr huid)])
      · have hcf : cr.hasCap (requiredCap c.capTag c.startCapTag) = false := by
          simpa using hcap
        exact Or.inr (hok.2 hcf huid)

/-- C4, witness: the member's field is 0 and the `START` entry's field is 13
(`CAP_NET_ADMIN + 1` say), so the required capability is 12; the caller holds
capability 12 and the check allows. -/
theorem c4_witness :
    (SdBus.mk false (Except.ok (CredsM.mk (fun k => k == 12) (some 5))) 0).trusted = false ∧
    requiredCap 0 13 = 12 ∧
    ((check_access (SdBus.mk false (Except.ok (CredsM.mk (fun k => k == 12) (some 5))) 0)
        (VMemberA.mk false 0 13)).r = 1 ↔
      ((CredsM.mk (fun k => k == 12) (some 5)).hasCap (requiredCap 0 13) = true ∨
        (CredsM.mk (fun k => k == 12) (some 5)).uid = some 0)) := by
  refine ⟨rfl, by decide, ?_⟩
  exact (c4_theorem (SdBus.mk false (Except.ok (CredsM.mk (fun k => k == 12) (some 5))) 0)
    (VMemberA.mk false 0 13) (CredsM.mk (fun k => k == 12) (some 5)) rfl rfl rfl).2.1

/-! ## Claim C9: GetManagedObjects with an empty child set -/

/-- With the stale `r = 0` from the container-open call, the vtable
existence scan of `process_get_managed_objects` never clears `empty`. -/
theorem gmo_scan_zero (rf : Bool) : ∀ l, gmo_vtable_scan rf 0 l = Except.ok true := by
  intro l
  induction l with
  | nil => rfl
  | cons fb rest ih =>
    unfold gmo_vtable_scan
    by_cases h : rf && !fb
    · simp [h, ih]
    · simp [h, ih]

/-- C9: a GetManagedObjects dispatch on a node carrying (or inheriting) the
object-manager marker whose enumerated child set is empty returns 0 and sends
no reply, whatever vtables are registered at the node — the existence scan
re-tests the stale result of the container-open call instead of resolving the
vtables, so it never clears `empty`. -/
theorem c9_theorem (validPath : String → Bool) (serialize : List String → Int)
    (nmf rf ancOM : Bool) (n : NodeT) (mpath : String)
    (hOM : bus_node_with_object_manager n ancOM = true)
    (hEmpty : get_child_nodes validPath mpath n = Except.ok []) :
    process_get_managed_objects validPath serialize nmf n ancOM rf mpath = (0, false) := by
  unfold process_get_managed_objects
  rw [hOM, hEmpty]
  cases nmf with
  | true => simp
  | false => simp [gmo_scan_zero]

/-- C9, witness: a node with the object-manager marker, one registered
(fallback) vtable, no children and no enumerators. -/
theorem c9_witness :
    bus_node_with_object_manager (NodeT.node rootPath [] [] [true] true) false = true ∧
    get_child_nodes (fun _ => true) rootPath (NodeT.node rootPath [] [] [true] true) =
      Except.ok [] ∧
    process_get_managed_objects (fun _ => true) (fun _ => 7) false
      (NodeT.node rootPath [] [] [true] true) false false rootPath = (0, false) :=
  ⟨rfl, rfl,
    c9_theorem (fun _ => true) (fun _ => 7) false false false
      (NodeT.node rootPath [] [] [true] true) rootPath rfl rfl⟩

/-! ## Claim C10: non-method-call messages and the empty node store -/

/-- C10: a message that is not a method call, or a method call processed
while the node store is empty, makes `bus_process_object` return 0 with no
handler invoked and no reply sent. -/
theorem c10_theorem (act : HId → EffectB) (std : StdHandlers) (fuel : Nat)
    (b : BusB) (m : Msg)
    (h : m.isMethodCall = false ∨ busNodesEmpty b = true) :
    bus_process_object act std fuel b m = (DispatchRes.mk 0 b false [] [], true) := by
  rcases h with h | h
  · simp [bus_process_object, h]
  · cases hm : m.isMethodCall with
    | false => simp [bus_process_object, hm]
    | true => simp [bus_process_object, hm, h]

/-- C10, witness: a signal message (not a method call) on a non-empty store. -/
theorem c10_witness :
    (Msg.mk false rootPath none none "").isMethodCall = false ∧
    bus_process_object (fun _ => EffectB.mk [] 0 false)
      (StdHandlers.mk (fun b _ _ _ f => DispatchRes.mk 0 b f [] [])
        (fun b _ _ _ f => DispatchRes.mk 0 b f [] [])
        (fun b _ _ _ f => DispatchRes.mk 0 b f [] []))
      3
      (BusB.mk [CB.mk rootPath 1 false 0] [] [] [] [] [] false 1 true
        (Except.error (-1)) 0)
      (Msg.mk false rootPath none none "") =
      (DispatchRes.mk 0
        (BusB.mk [CB.mk rootPath 1 false 0] [] [] [] [] [] false 1 true
          (Except.error (-1)) 0)
        false [] [], true) :=
  ⟨rfl,
    c10_theorem (fun _ => EffectB.mk [] 0 false)
      (StdHandlers.mk (fun b _ _ _ f => DispatchRes.mk 0 b f [] [])
        (fun b _ _ _ f => DispatchRes.mk 0 b f [] [])
        (fun b _ _ _ f => DispatchRes.mk 0 b f [] []))
      3
      (BusB.mk [CB.mk rootPath 1 false 0] [] [] [] [] [] false 1 true
        (Except.error (-1)) 0)
      (Msg.mk false rootPath none none "") (Or.inl rfl)⟩

/-! ## Claim C8: validation of property entries -/

theorem prop_common_claim (V : Validators) (mem sig : String) (hg : Bool) (f : VFlags) :
    property_common_ok V false mem sig hg f =
      property_claim_ok V (VEntry.property mem sig hg f) := by
  cases f with
  | mk hid unp nor ec io cap =>
    simp only [property_common_ok, property_claim_ok]
    generalize V.memberValid mem = a
    generalize V.signatureSingle sig = b
    generalize V.basicType (sigHead sig) = c
    generalize (sig == asSignature) = d
    revert a b c d hg unp nor ec io
    decide

theorem writable_claim (V : Validators) (mem sig : String) (hg hs : Bool) (f : VFlags) :
    (writable_precheck V hs sig && property_common_ok V true mem sig hg f) =
      property_claim_ok V (VEntry.writableProperty mem sig hg hs f) := by
  cases f with
  | mk hid unp nor ec io cap =>
    simp only [writable_precheck, property_common_ok, property_claim_ok]
    generalize V.memberValid mem = a
    generalize V.signatureSingle sig = b
    generalize V.basicType (sigHead sig) = c
    generalize (sig == asSignature) = d
    revert a b c d hg hs unp nor ec io
    decide

theorem c8_aux (V : Validators) :
    ∀ (entries : List VEntry) (seenM seenP : List String),
      (∀ e ∈ entries, other_entry_ok V e = true) →
      (seenM ++ vtableMethodNames entries).Nodup →
      (seenP ++ vtablePropNames entries).Nodup →
      (add_object_vtable_validate V entries seenM seenP = Except.ok () ↔
        ∀ e ∈ entries, property_claim_ok V e = true) ∧
      (add_object_vtable_validate V entries seenM seenP = Except.ok () ∨
        add_object_vtable_validate V entries seenM seenP = Except.error (-EINVAL)) := by
  intro entries
  induction entries with
  | nil =>
    intro seenM seenP _ _ _
    constructor
    · simp [add_object_vtable_validate]
    · left
      rfl
  | cons e rest ih =>
    intro seenM seenP hOther hM hP
    cases e with
    | method mem sig result hh f =>
      have hme : method_entry_ok V mem sig result hh f = true :=
        hOther (VEntry.method mem sig result hh f) (List.mem_cons_self _ _)
      have hM2 : (mem :: (seenM ++ vtableMethodNames rest)).Nodup :=
        (@List.perm_middle String mem seenM
          (vtableMethodNames rest)).nodup (by simpa [vtableMethodNames] using hM)
      have hnm : mem ∉ seenM := fun hmm =>
        (List.nodup_cons.mp hM2).1 (List.mem_append.mpr (Or.inl hmm))
      have hcontains : seenM.contains mem = false := by
        simp [hnm]
      have hrec := ih (mem :: seenM) seenP
        (fun x hx => hOther x (List.mem_cons_of_mem _ hx))
        (by simpa [vtableMethodNames] using hM2)
        (by simpa [vtablePropNames] using hP)
      have hstep : add_object_vtable_validate V (VEntry.method mem sig result hh f :: rest)
          seenM seenP = add_object_vtable_validate V rest (mem :: seenM) seenP := by
        simp [add_object_vtable_validate, hme, hnm]
      constructor
      · rw [hstep, hrec.1]
        constructor
        · intro h x hx
          rcases List.mem_cons.mp hx with hx | hx
          · rw [hx]
            rfl
          · exact h x hx
        · intro h x hx
          exact h x (List.mem_cons_of_mem _ hx)
      · rw [hstep]
        exact hrec.2
    | property mem sig hg f =>
      by_cases hpc : property_common_ok V false mem sig hg f = true
      · have hP2 : (mem :: (seenP ++ vtablePropNames rest)).Nodup :=
          (@List.perm_middle String mem seenP
            (vtablePropNames rest)).nodup (by simpa [vtablePropNames] using hP)
        have hnp : mem ∉ seenP := fun hmm =>
          (List.nodup_cons.mp hP2).1 (List.mem_append.mpr (Or.inl hmm))
        have hcontains : seenP.contains mem = false := by
          simp [hnp]
        have hrec := ih seenM (mem :: seenP)
          (fun x hx => hOther x (List.mem_cons_of_mem _ hx))
          (by simpa [vtableMethodNames] using hM)
          (by simpa [vtablePropNames] using hP2)
        have hstep : add_object_vtable_validate V (VEntry.property mem sig hg f :: rest)
            seenM seenP = add_object_vtable_validate V rest seenM (mem :: seenP) := by
          simp [add_object_vtable_validate, hpc, hnp]
        constructor
        · rw [hstep, hrec.1]
          constructor
          · intro h x hx
            rcases List.mem_cons.mp hx with hx | hx
            · rw [hx, ← prop_common_claim]
              exact hpc
            · exact h x hx
          · intro h x hx
            exact h x (List.mem_cons_of_mem _ hx)
        · rw [hstep]
          exact hrec.2
      · have hpf : property_common_ok V false mem sig hg f = false := by
          simpa using hpc
        have hstep : add_object_vtable_validate V (VEntry.property mem sig hg f :: rest)
            seenM seenP = Except.error (-EINVAL) := by
          simp [add_object_vtable_validate, hpf]
        constructor
        · rw [hstep]
          constructor
          · intro h
            cases h
          · intro h
            have := h (VEntry.property mem sig hg f) (List.mem_cons_self _ _)
            rw [← prop_common_claim] at this
            rw [this] at hpf
            cases hpf
        · right
          exact hstep
    | writableProperty mem sig hg hs f =>
      by_cases hcl : (writable_precheck V hs sig &&
          property_common_ok V true mem sig hg f) = true
      · have hsplit : writable_precheck V hs sig = true ∧
            property_common_ok V true mem sig hg f = true := by
          rw [Bool.and_eq_true] at hcl
          exact hcl
        have hpre := hsplit.1
        have hco := hsplit.2
        have hP2 : (mem :: (seenP ++ vtablePropNames rest)).Nodup :=
          (@List.perm_middle String mem seenP
            (vtablePropNames rest)).nodup (by simpa [vtablePropNames] using hP)
        have hnp : mem ∉ seenP := fun hmm =>
          (List.nodup_cons.mp hP2).1 (List.mem_append.mpr (Or.inl hmm))
        have hcontains : seenP.contains mem = false := by
          simp [hnp]
        have hrec := ih seenM (mem :: seenP)
          (fun x hx => hOther x (List.mem_cons_of_mem _ hx))
          (by simpa [vtableMethodNames] using hM)
          (by simpa [vtablePropNames] using hP2)
        have hstep : add_object_vtable_validate V
            (VEntry.writableProperty mem sig hg hs f :: rest) seenM seenP =
            add_object_vtable_validate V rest seenM (mem :: seenP) := by
          simp [add_object_vtable_validate, hpre, hco, hnp]
        constructor
        · rw [hstep, hrec.1]
          constructor
          · intro h x hx
            rcases List.mem_cons.mp hx with hx | hx
            · rw [hx, ← writable_claim]
              exact hcl
            · exact h x hx
          · intro h x hx
            exact h x (List.mem_cons_of_mem _ hx)
        · rw [hstep]
          exact hrec.2
      · have hclf : property_claim_ok V (VEntry.writableProperty mem sig hg hs f) = false := by
          rw [← writable_claim]
          simpa using hcl
        have hstep : add_object_vtable_validate V
            (VEntry.writableProperty mem sig hg hs f :: rest) seenM seenP =
            Except.error (-EINVAL) := by
          by_cases hpre : writable_precheck V hs sig = true
          · have hco : property_common_ok V true mem sig hg f = false := by
              cases hco2 : property_common_ok V true mem sig hg f
              · rfl
              · exact absurd (by simp [hpre, hco2] : (writable_precheck V hs sig &&
                  property_common_ok V true mem sig hg f) = true) hcl
            simp [add_object_vtable_validate, hpre, hco]
          · have hpref : writable_precheck V hs sig = false := by
              simpa using hpre
            simp [add_object_vtable_validate, hpref]
        constructor
        · rw [hstep]
          constructor
          · intro h
            cases h
          · intro h
            have hx := h (VEntry.writableProperty mem sig hg hs f) (List.mem_cons_self _ _)
            rw [hx] at hclf
            cases hclf
        · right
          exact hstep
    | signalEntry mem sig f =>
      have hse : signal_entry_ok V mem sig f = true :=
        hOther (VEntry.signalEntry mem sig f) (List.mem_cons_self _ _)
      have hrec := ih seenM seenP
        (fun x hx => hOther x (List.mem_cons_of_mem _ hx))
        (by simpa [vtableMethodNames] using hM)
        (by simpa [vtablePropNames] using hP)
      have hstep : add_object_vtable_validate V (VEntry.signalEntry mem sig f :: rest)
          seenM seenP = add_object_vtable_validate V rest seenM seenP := by
        simp [add_object_vtable_validate, hse]
      constructor
      · rw [hstep, hrec.1]
        constructor
        · intro h x hx
          rcases List.mem_cons.mp hx with hx | hx
          · rw [hx]
            rfl
          · exact h x hx
        · intro h x hx
          exact h x (List.mem_cons_of_mem _ hx)
      · rw [hstep]
        exact hrec.2

/-- C8: for a vtable whose other entry kinds pass their own checks and whose
member names are collision-free, registration validation succeeds exactly when
every `PROPERTY`/`WRITABLE_PROPERTY` entry satisfies: valid member name,
single complete signature, basic signature or exactly `"as"` when no custom
getter, a setter or basic signature on `WRITABLE_PROPERTY`, no
`METHOD_NO_REPLY`, `INVALIDATE_ONLY` only with `EMITS_CHANGE`, and no
`UNPRIVILEGED` on read-only `PROPERTY`; when some property entry violates the
conjunction, registration fails with `-EINVAL`. -/
theorem c8_theorem (V : Validators) (entries : List VEntry)
    (hOther : ∀ e ∈ entries, other_entry_ok V e = true)
    (hM : (vtableMethodNames entries).Nodup)
    (hP : (vtablePropNames entries).Nodup) :
    (add_object_vtable_validate V entries [] [] = Except.ok () ↔
      ∀ e ∈ entries, property_claim_ok V e = true) ∧
    ((∃ e ∈ entries, property_claim_ok V e = false) →
      add_object_vtable_validate V entries [] [] = Except.error (-EINVAL)) := by
  have h := c8_aux V entries [] [] hOther (by simpa using hM) (by simpa using hP)
  refine ⟨h.1, ?_⟩
  rintro ⟨e, he, hbad⟩
  rcases h.2 with hok | herr
  · have := h.1.mp hok e he
    rw [this] at hbad
    cases hbad
  · exact herr

/-- C8, witness: a single well-formed read-only property entry under
validators that accept everything. -/
theorem c8_witness :
    (∀ e ∈ [VEntry.property "P" "s" false (VFlags.mk false false false false false 0)],
      other_entry_ok (Validators.mk (fun _ => true) (fun _ => true) (fun _ => true)
        (fun _ => true)) e = true) ∧
    (add_object_vtable_validate (Validators.mk (fun _ => true) (fun _ => true)
        (fun _ => true) (fun _ => true))
        [VEntry.property "P" "s" false (VFlags.mk false false false false false 0)] [] [] =
        Except.ok () ↔
      ∀ e ∈ [VEntry.property "P" "s" false (VFlags.mk false false false false false 0)],
        property_claim_ok (Validators.mk (fun _ => true) (fun _ => true) (fun _ => true)
          (fun _ => true)) e = true) :=
  ⟨by decide,
    (c8_theorem (Validators.mk (fun _ => true) (fun _ => true) (fun _ => true)
        (fun _ => true))
      [VEntry.property "P" "s" false (VFlags.mk false false false false false 0)]
      (by decide) (by decide) (by decide)).1⟩

/-! ## The `last_iteration` invariant (claim C6)

`burnedH b h` says every live handler carrying the identity `h` has its
`last_iteration` equal to the current iteration counter — once true it stays
true through marking, through registration calls that only add fresh handlers
or remove existing ones, and hence through the rest of the dispatch; a handler
is only invoked when it is not burned, and invoking it burns it.  `SegP`
captures this for one segment of the run. -/

def opAddHandles : RegOpB → List HId
  | RegOpB.addCallback _ i _ => [HId.cbH i]
  | RegOpB.addVtable _ _ _ _ _ _ ms => ms.map (fun md => HId.mbH md.id)
  | _ => []

def busHandles (b : BusB) : List HId :=
  b.callbacks.map (fun c => HId.cbH c.id) ++ b.members.map (fun v => HId.mbH v.id)

def burnedH (b : BusB) : HId → Prop
  | HId.cbH i => ∀ c ∈ b.callbacks, c.id = i → c.lastIteration = b.iterationCounter
  | HId.mbH i => ∀ v ∈ b.members, v.id = i → v.lastIteration = b.iterationCounter

def FreshActs (act : HId → EffectB) (H : List HId) : Prop :=
  ∀ h : HId, ∀ op ∈ (act h).ops, ∀ g ∈ opAddHandles op, g ∉ H

def SegP (H : List HId) (b b' : BusB) (tr : List HId) : Prop :=
  b'.iterationCounter = b.iterationCounter ∧
  (∀ h ∈ H, burnedH b h → burnedH b' h) ∧
  (∀ h ∈ H, h ∈ tr → burnedH b' h) ∧
  (∀ h ∈ H, h ∈ tr → ¬ burnedH b h) ∧
  (∀ h ∈ H, tr.count h ≤ 1)

theorem segP_of_core (H : List HId) {b b' : BusB} (hc : b'.callbacks = b.callbacks)
    (hm : b'.members = b.members) (hi : b'.iterationCounter = b.iterationCounter) :
    SegP H b b' [] := by
  refine ⟨hi, ?_, ?_, ?_, ?_⟩
  · intro h _ hb
    cases h with
    | cbH i =>
      intro c hcm hid
      rw [hi]
      exact hb c (by rwa [hc] at hcm) hid
    | mbH i =>
      intro v hvm hid
      rw [hi]
      exact hb v (by rwa [hm] at hvm) hid
  · intro h _ htr
    cases htr
  · intro h _ htr
    cases htr
  · intro h _
    simp

theorem segP_refl (H : List HId) (b : BusB) : SegP H b b [] :=
  segP_of_core H rfl rfl rfl

theorem segP_comp (H : List HId) {b1 b2 b3 : BusB} {t1 t2 : List HId}
    (h1 : SegP H b1 b2 t1) (h2 : SegP H b2 b3 t2) : SegP H b1 b3 (t1 ++ t2) := by
  obtain ⟨i1, m1, a1, n1, c1⟩ := h1
  obtain ⟨i2, m2, a2, n2, c2⟩ := h2
  refine ⟨by rw [i2, i1], ?_, ?_, ?_, ?_⟩
  · intro h hH hb
    exact m2 h hH (m1 h hH hb)
  · intro h hH htr
    rcases List.mem_append.mp htr with ht | ht
    · exact m2 h hH (a1 h hH ht)
    · exact a2 h hH ht
  · intro h hH htr
    rcases List.mem_append.mp htr with ht | ht
    · exact n1 h hH ht
    · intro hb
      exact n2 h hH ht (m1 h hH hb)
  · intro h hH
    rw [List.count_append]
    by_cases h1m : h ∈ t1
    · have hb2 : burnedH b2 h := a1 h hH h1m
      have h2m : h ∉ t2 := fun ht => n2 h hH ht hb2
      have : t2.count h = 0 := List.count_eq_zero.mpr h2m
      rw [this]
      simpa using c1 h hH
    · have : t1.count h = 0 := List.count_eq_zero.mpr h1m
      rw [this]
      simpa using c2 h hH

theorem applyOp_iter (b : BusB) (op : RegOpB) :
    (applyOp b op).iterationCounter = b.iterationCounter := by
  cases op <;> simp only [applyOp] <;> split_ifs <;> rfl

theorem applyOp_burned {H : List HId} (b : BusB) (op : RegOpB) {h : HId} (hh : h ∈ H)
    (hf : ∀ g ∈ opAddHandles op, g ∉ H) (hb : burnedH b h) : burnedH (applyOp b op) h := by
  have hiter := applyOp_iter b op
  cases h with
  | cbH i =>
    intro c hcm hid
    rw [hiter]
    cases op with
    | addCallback p j fb =>
      simp only [applyOp] at hcm
      try dsimp only at hcm
      rcases List.mem_cons.mp hcm with hc | hc
      · exfalso
        have hji : j = i := by
          rw [hc] at hid
          exact hid
        exact hf (HId.cbH j) (by simp [opAddHandles]) (by rwa [hji])
      · exact hb c hc hid
    | removeCallback p j fb =>
      simp only [applyOp] at hcm
      split_ifs at hcm <;> try dsimp only at hcm
      · exact hb c ((List.eraseP_sublist _).mem hcm) hid
      · exact hb c hcm hid
    | addVtable p vid intf fb fnd st ms =>
      simp only [applyOp] at hcm
      split_ifs at hcm <;> ((try dsimp only at hcm); exact hb c hcm hid)
    | removeVtable p vid =>
      simp only [applyOp] at hcm
      split_ifs at hcm <;> try dsimp only at hcm
      · exact hb c hcm hid
      · exact hb c hcm hid
    | addEnumerator p =>
      simp only [applyOp] at hcm
      try dsimp only at hcm
      exact hb c hcm hid
    | removeEnumerator p =>
      simp only [applyOp] at hcm
      split_ifs at hcm <;> ((try dsimp only at hcm); exact hb c hcm hid)
    | addObjectManager p =>
      simp only [applyOp] at hcm
      try dsimp only at hcm
      exact hb c hcm hid
    | removeObjectManager p =>
      simp only [applyOp] at hcm
      split_ifs at hcm <;> ((try dsimp only at hcm); exact hb c hcm hid)
  | mbH i =>
    intro v hvm hid
    rw [hiter]
    cases op with
    | addCallback p j fb =>
      simp only [applyOp] at hvm
      try dsimp only at hvm
      exact hb v hvm hid
    | removeCallback p j fb =>
      simp only [applyOp] at hvm
      split_ifs at hvm <;> ((try dsimp only at hvm); exact hb v hvm hid)
    | addVtable p vid intf fb fnd st ms =>
      simp only [applyOp] at hvm
      split_ifs at hvm <;> try dsimp only at hvm
      · exact hb v hvm hid
      · exact hb v hvm hid
      · exact hb v hvm hid
      · exact hb v hvm hid
      · rcases List.mem_append.mp hvm with hv | hv
        · exfalso
          rcases List.mem_map.mp hv with ⟨md, hmd, hveq⟩
          have hji : md.id = i := by
            rw [← hveq] at hid
            exact hid
          refine hf (HId.mbH md.id) ?_ (by rwa [hji])
          simp only [opAddHandles, List.mem_map]
          exact ⟨md, hmd, rfl⟩
        · exact hb v hv hid
    | removeVtable p vid =>
      simp only [applyOp] at hvm
      split_ifs at hvm <;> try dsimp only at hvm
      · exact hb v (List.mem_of_mem_filter hvm) hid
      · exact hb v hvm hid
    | addEnumerator p =>
      simp only [applyOp] at hvm
      try dsimp only at hvm
      exact hb v hvm hid
    | removeEnumerator p =>
      simp only [applyOp] at hvm
      split_ifs at hvm <;> ((try dsimp only at hvm); exact hb v hvm hid)
    | addObjectManager p =>
      simp only [applyOp] at hvm
      try dsimp only at hvm
      exact hb v hvm hid
    | removeObjectManager p =>
      simp only [applyOp] at hvm
      split_ifs at hvm <;> ((try dsimp only at hvm); exact hb v hvm hid)

theorem applyOps_segP (H : List HId) (b : BusB) (ops : List RegOpB)
    (hf : ∀ op ∈ ops, ∀ g ∈ opAddHandles op, g ∉ H) :
    SegP H b (applyOps b ops) [] := by
  induction ops generalizing b with
  | nil => exact segP_refl H b
  | cons op rest ih =>
    have h1 : SegP H b (applyOp b op) [] := by
      refine ⟨applyOp_iter b op, ?_, ?_, ?_, ?_⟩
      · intro h hH hb
        exact applyOp_burned b op hH (hf op (List.mem_cons_self _ _)) hb
      · intro h _ htr
        cases htr
      · intro h _ htr
        cases htr
      · intro h _
        simp
    have h2 := ih (applyOp b op) (fun o ho => hf o (List.mem_cons_of_mem _ ho))
    have := segP_comp H h1 h2
    simpa [applyOps] using this

@[simp] theorem markCB_iter (b : BusB) (i : Nat) :
    (markCB b i).iterationCounter = b.iterationCounter := rfl

@[simp] theorem markCB_members (b : BusB) (i : Nat) :
    (markCB b i).members = b.members := rfl

@[simp] theorem markMB_iter (b : BusB) (i : Nat) :
    (markMB b i).iterationCounter = b.iterationCounter := rfl

@[simp] theorem markMB_callbacks (b : BusB) (i : Nat) :
    (markMB b i).callbacks = b.callbacks := rfl

theorem markCB_segP (H : List HId) (b : BusB) (i : Nat) : SegP H b (markCB b i) [] := by
  refine ⟨rfl, ?_, ?_, ?_, ?_⟩
  · intro h _ hb
    cases h with
    | cbH j =>
      intro c hcm hid
      simp only [markCB] at hcm
      try dsimp only at hcm
      rcases List.mem_map.mp hcm with ⟨c0, hc0, hceq⟩
      by_cases hc0i : (c0.id == i) = true
      · rw [← hceq]
        simp [hc0i]
      · have : c = c0 := by
          rw [← hceq]
          simp [hc0i]
        rw [this]
        exact hb c0 hc0 (by rwa [this] at hid)
    | mbH j =>
      intro v hvm hid
      exact hb v hvm hid
  · intro h _ htr
    cases htr
  · intro h _ htr
    cases htr
  · intro h _
    simp

theorem markCB_burns (b : BusB) (i : Nat) : burnedH (markCB b i) (HId.cbH i) := by
  intro c hcm hid
  simp only [markCB] at hcm
  try dsimp only at hcm
  rcases List.mem_map.mp hcm with ⟨c0, hc0, hceq⟩
  by_cases hc0i : (c0.id == i) = true
  · rw [← hceq]
    simp [hc0i]
  · exfalso
    have : c = c0 := by
      rw [← hceq]
      simp [hc0i]
    rw [this] at hid
    exact hc0i (by simp [hid])

theorem markMB_segP (H : List HId) (b : BusB) (i : Nat) : SegP H b (markMB b i) [] := by
  refine ⟨rfl, ?_, ?_, ?_, ?_⟩
  · intro h _ hb
    cases h with
    | cbH j =>
      intro c hcm hid
      exact hb c hcm hid
    | mbH j =>
      intro v hvm hid
      simp only [markMB] at hvm
      try dsimp only at hvm
      rcases List.mem_map.mp hvm with ⟨v0, hv0, hveq⟩
      by_cases hv0i : (v0.id == i) = true
      · rw [← hveq]
        simp [hv0i]
      · have : v = v0 := by
          rw [← hveq]
          simp [hv0i]
        rw [this]
        exact hb v0 hv0 (by rwa [this] at hid)
  · intro h _ htr
    cases htr
  · intro h _ htr
    cases htr
  · intro h _
    simp

theorem markMB_burns (b : BusB) (i : Nat) : burnedH (markMB b i) (HId.mbH i) := by
  intro v hvm hid
  simp only [markMB] at hvm
  try dsimp only at hvm
  rcases List.mem_map.mp hvm with ⟨v0, hv0, hveq⟩
  by_cases hv0i : (v0.id == i) = true
  · rw [← hveq]
    simp [hv0i]
  · exfalso
    have : v = v0 := by
      rw [← hveq]
      simp [hv0i]
    rw [this] at hid
    exact hv0i (by simp [hid])

/-- The atomic invoke-and-apply-effects step for a node callback: mark the
callback burned, run its registrations, record it in the trace. -/
theorem invoke_cb_segP (act : HId → EffectB) (H : List HId) (b : BusB) (i : Nat)
    (hf : FreshActs act H) (cc : CB) (hmem : cc ∈ b.callbacks) (hid : cc.id = i)
    (hni : cc.lastIteration ≠ b.iterationCounter) :
    SegP H b (applyOps (markCB b i) (act (HId.cbH i)).ops) [HId.cbH i] := by
  have h1 := markCB_segP H b i
  have h2 := applyOps_segP H (markCB b i) (act (HId.cbH i)).ops
    (fun op hop => hf (HId.cbH i) op hop)
  have hcomp := segP_comp H h1 h2
  obtain ⟨hi, hmono, _, _, _⟩ := hcomp
  refine ⟨hi, hmono, ?_, ?_, ?_⟩
  · intro h hH htr
    rcases List.mem_singleton.mp htr with rfl
    have hburn1 : burnedH (markCB b i) (HId.cbH i) := markCB_burns b i
    exact h2.2.1 (HId.cbH i) hH hburn1
  · intro h hH htr
    rcases List.mem_singleton.mp htr with rfl
    intro hb
    exact hni (hb cc hmem hid)
  · intro h _
    by_cases he : h = HId.cbH i
    · simp [he]
    · simp [List.count_singleton', he]

/-- The atomic invoke-and-apply-effects step for a method member. -/
theorem invoke_mb_segP (act : HId → EffectB) (H : List HId) (b : BusB) (i : Nat)
    (hf : FreshActs act H) (v : MB) (hmem : v ∈ b.members) (hid : v.id = i)
    (hni : v.lastIteration ≠ b.iterationCounter) :
    SegP H b (applyOps (markMB b i) (act (HId.mbH i)).ops) [HId.mbH i] := by
  have h1 := markMB_segP H b i
  have h2 := applyOps_segP H (markMB b i) (act (HId.mbH i)).ops
    (fun op hop => hf (HId.mbH i) op hop)
  have hcomp := segP_comp H h1 h2
  obtain ⟨hi, hmono, _, _, _⟩ := hcomp
  refine ⟨hi, hmono, ?_, ?_, ?_⟩
  · intro h hH htr
    rcases List.mem_singleton.mp htr with rfl
    exact h2.2.1 (HId.mbH i) hH (markMB_burns b i)
  · intro h hH htr
    rcases List.mem_singleton.mp htr with rfl
    intro hb
    exact hni (hb v hmem hid)
  · intro h _
    by_cases he : h = HId.mbH i
    · simp [he]
    · simp [List.count_singleton', he]

theorem node_callbacks_run_segP (act : HId → EffectB) (H : List HId)
    (hf : FreshActs act H) :
    ∀ (cbs : List CB) (b : BusB) (rf found : Bool),
      SegP H b (node_callbacks_run act b rf found cbs).bus
        (node_callbacks_run act b rf found cbs).invoked := by
  intro cbs
  induction cbs with
  | nil =>
    intro b rf found
    exact segP_refl H b
  | cons c rest ih =>
    intro b rf found
    cases hmod : b.nodesModified with
    | true =>
      simp only [node_callbacks_run, hmod, if_true]
      exact segP_refl H b
    | false =>
      cases hrf : (rf && !c.isFallback) with
      | true =>
        simp only [node_callbacks_run, hmod, hrf, Bool.false_eq_true, if_false, if_true]
        exact ih b rf found
      | false =>
        cases hfind : b.callbacks.find? (fun x => x.id == c.id) with
        | none =>
          simp only [node_callbacks_run, hmod, hrf, hfind, Bool.false_eq_true, if_false]
          exact ih b rf true
        | some cc =>
          cases hit : (cc.lastIteration == b.iterationCounter) with
          | true =>
            simp only [node_callbacks_run, hmod, hrf, hfind, hit, Bool.false_eq_true,
              if_false, if_true]
            exact ih b rf true
          | false =>
            have hmem : cc ∈ b.callbacks := List.mem_of_find?_eq_some hfind
            have hccid : cc.id = c.id := by
              have := List.find?_some hfind
              simpa using this
            have hni : cc.lastIteration ≠ b.iterationCounter := by
              simpa using hit
            have hinv := invoke_cb_segP act H b c.id hf cc hmem hccid hni
            cases hrs : ((bus_maybe_reply_error (act (HId.cbH c.id)).ret
                (act (HId.cbH c.id)).errSet).1 != 0) with
            | true =>
              simp only [node_callbacks_run, hmod, hrf, hfind, hit, hrs,
                Bool.false_eq_true, if_false, if_true]
              exact hinv
            | false =>
              simp only [node_callbacks_run, hmod, hrf, hfind, hit, hrs,
                Bool.false_eq_true, if_false]
              have hrest := ih (applyOps (markCB b c.id) (act (HId.cbH c.id)).ops) rf true
              have := segP_comp H hinv hrest
              simpa using this

theorem method_callbacks_run_segP (act : HId → EffectB) (H : List HId)
    (hf : FreshActs act H) (b : BusB) (m : Msg) (v : MB) (rf found : Bool)
    (hv : v ∈ b.members) :
    SegP H b (method_callbacks_run act b m v rf found).bus
      (method_callbacks_run act b m v rf found).invoked := by
  cases hpv : b.vtables.find? (fun w => w.path == v.path && w.vid == v.parentVid) with
  | none =>
    simp only [method_callbacks_run, hpv]
    exact segP_refl H b
  | some pv =>
    cases hrf : (rf && !pv.isFallback) with
    | true =>
      simp only [method_callbacks_run, hpv, hrf, if_true]
      exact segP_refl H b
    | false =>
      by_cases har : (check_access (SdBus.mk b.trusted b.queryCreds b.processUid)
          (VMemberA.mk v.unprivileged v.capTag pv.startCapTag)).r < 0
      · simp only [method_callbacks_run, hpv, hrf, Bool.false_eq_true, if_false,
          if_pos har]
        exact segP_refl H b
      · by_cases hgu : node_vtable_get_userdata pv m.path ≤ 0
        · simp only [method_callbacks_run, hpv, hrf, Bool.false_eq_true, if_false,
            if_neg har, if_pos hgu]
          exact segP_refl H b
        · cases hmod : b.nodesModified with
          | true =>
            simp only [method_callbacks_run, hpv, hrf, Bool.false_eq_true, if_false,
              if_neg har, if_neg hgu, hmod, if_true]
            exact segP_refl H b
          | false =>
            cases hit : (v.lastIteration == b.iterationCounter) with
            | true =>
              simp only [method_callbacks_run, hpv, hrf, Bool.false_eq_true, if_false,
                if_neg har, if_neg hgu, hmod, hit, if_true]
              exact segP_refl H b
            | false =>
              have hni : v.lastIteration ≠ b.iterationCounter := by
                simpa using hit
              cases hsig : (v.signature != m.signature) with
              | true =>
                simp only [method_callbacks_run, hpv, hrf, Bool.false_eq_true, if_false,
                  if_neg har, if_neg hgu, hmod, hit, hsig, if_true]
                exact markMB_segP H b v.id
              | false =>
                cases hhh : v.hasHandler with
                | true =>
                  simp only [method_callbacks_run, hpv, hrf, Bool.false_eq_true, if_false,
                    if_neg har, if_neg hgu, hmod, hit, hsig, hhh, if_true]
                  exact invoke_mb_segP act H b v.id hf v hv rfl hni
                | false =>
                  simp only [method_callbacks_run, hpv, hrf, Bool.false_eq_true, if_false,
                    if_neg har, if_neg hgu, hmod, hit, hsig, hhh, if_true]
                  exact markMB_segP H b v.id

/-- The message addresses none of the three standard interfaces, so the
oracle branches of `object_find_and_run` are dead. -/
def nonReservedMsg (m : Msg) : Prop :=
  m.interface ≠ some ifaceProperties ∧ m.interface ≠ some ifaceIntrospectable ∧
  m.interface ≠ some ifaceObjectManager

instance (m : Msg) : Decidable (nonReservedMsg m) := by
  unfold nonReservedMsg
  infer_instance

theorem std_branch_nonreserved (std : StdHandlers) (b : BusB) (m : Msg) (p : String)
    (rf found : Bool) (intf memb : String) (h1 : intf ≠ ifaceProperties)
    (h2 : intf ≠ ifaceIntrospectable) (h3 : intf ≠ ifaceObjectManager) :
    std_branch std b m p rf found intf memb = DispatchRes.mk 0 b found [] [] := by
  simp [std_branch, h1, h2, h3]

theorem object_find_and_run_segP (act : HId → EffectB) (H : List HId)
    (hf : FreshActs act H) (std : StdHandlers) (b : BusB) (m : Msg) (p : String)
    (rf found : Bool) (hnr : nonReservedMsg m) :
    SegP H b (object_find_and_run act std b m p rf found).bus
      (object_find_and_run act std b m p rf found).invoked := by
  simp only [object_find_and_run]
  cases han : nodeAnchored b p with
  | false =>
    simp only [Bool.not_false, if_true]
    exact segP_refl H b
  | true =>
    simp only [Bool.not_true, Bool.false_eq_true, if_false]
    have hseg1 := node_callbacks_run_segP act H hf
      (b.callbacks.filter (fun c => c.path == p)) b rf found
    set d1 := node_callbacks_run act b rf found
      (b.callbacks.filter (fun c => c.path == p)) with hd1def
    cases hd1r : (d1.r != 0) with
    | true =>
      simp only [hd1r, if_true]
      exact hseg1
    | false =>
      simp only [hd1r, Bool.false_eq_true, if_false]
      cases hd1m : d1.bus.nodesModified with
      | true =>
        simp only [hd1m, if_true]
        exact hseg1
      | false =>
        simp only [hd1m, Bool.false_eq_true, if_false]
        cases hmi : m.interface with
        | none => exact hseg1
        | some intf =>
          cases hmm : m.member with
          | none => exact hseg1
          | some memb =>
            have h1 : intf ≠ ifaceProperties := by
              intro h
              exact hnr.1 (by rw [hmi, h])
            have h2 : intf ≠ ifaceIntrospectable := by
              intro h
              exact hnr.2.1 (by rw [hmi, h])
            have h3 : intf ≠ ifaceObjectManager := by
              intro h
              exact hnr.2.2 (by rw [hmi, h])
            cases hlm : lookupMethod d1.bus p intf memb with
            | none =>
              simp only [hlm]
              rw [std_branch_nonreserved std d1.bus m p rf d1.found intf memb h1 h2 h3]
              simp only [List.append_nil]
              split_ifs <;> exact hseg1
            | some v =>
              have hv : v ∈ d1.bus.members := by
                have := List.mem_of_find?_eq_some hlm
                exact this
              have hsegm := method_callbacks_run_segP act H hf d1.bus m v rf d1.found hv
              have hseg2 := segP_comp H hseg1 hsegm
              simp only [hlm]
              set r2 := method_callbacks_run act d1.bus m v rf d1.found with hr2def
              rw [std_branch_nonreserved std r2.bus m p rf r2.found intf memb h1 h2 h3]
              simp only [List.append_nil]
              split_ifs <;> exact hseg2

theorem fallback_scan_segP (act : HId → EffectB) (H : List HId) (hf : FreshActs act H)
    (std : StdHandlers) (m : Msg) (hnr : nonReservedMsg m) :
    ∀ (pfxs : List String) (b : BusB) (found : Bool),
      SegP H b (fallback_scan act std b m found pfxs).bus
        (fallback_scan act std b m found pfxs).invoked := by
  intro pfxs
  induction pfxs with
  | nil =>
    intro b found
    exact segP_refl H b
  | cons pfx rest ih =>
    intro b found
    cases hmod : b.nodesModified with
    | true =>
      simp only [fallback_scan, hmod, if_true]
      exact segP_refl H b
    | false =>
      simp only [fallback_scan, hmod, Bool.false_eq_true, if_false]
      have hseg1 := object_find_and_run_segP act H hf std b m pfx true found hnr
      set d := object_find_and_run act std b m pfx true found with hddef
      cases hdr : (d.r != 0) with
      | true =>
        simp only [hdr, if_true]
        exact hseg1
      | false =>
        simp only [hdr, Bool.false_eq_true, if_false]
        have := segP_comp H hseg1 (ih d.bus d.found)
        simpa using this

theorem dispatch_attempt_segP (act : HId → EffectB) (H : List HId)
    (hf : FreshActs act H) (std : StdHandlers) (b : BusB) (m : Msg) (found : Bool)
    (hnr : nonReservedMsg m) :
    SegP H b (dispatch_attempt act std b m found).bus
      (dispatch_attempt act std b m found).invoked := by
  simp only [dispatch_attempt]
  have hseg0 : SegP H b { b with nodesModified := false } [] :=
    segP_of_core H rfl rfl rfl
  have hseg1 := object_find_and_run_segP act H hf std { b with nodesModified := false }
    m m.path false found hnr
  have hseg01 := segP_comp H hseg0 hseg1
  simp only [List.nil_append] at hseg01
  set d := object_find_and_run act std { b with nodesModified := false } m m.path
    false found with hddef
  cases hdr : (d.r != 0) with
  | true =>
    simp only [hdr, if_true]
    exact hseg01
  | false =>
    simp only [hdr, Bool.false_eq_true, if_false]
    have hseg2 := fallback_scan_segP act H hf std m hnr (pathPrefixes m.path) d.bus d.found
    have := segP_comp H hseg01 hseg2
    simpa using this

theorem process_loop_segP (act : HId → EffectB) (H : List HId) (hf : FreshActs act H)
    (std : StdHandlers) (m : Msg) (hnr : nonReservedMsg m) :
    ∀ (fuel : Nat) (b : BusB) (found : Bool),
      SegP H b (process_loop act std fuel b m found).1.bus
        (process_loop act std fuel b m found).1.invoked := by
  intro fuel
  induction fuel with
  | zero =>
    intro b found
    exact segP_refl H b
  | succ fuel ih =>
    intro b found
    simp only [process_loop]
    have hsegd := dispatch_attempt_segP act H hf std b m found hnr
    set d := dispatch_attempt act std b m found with hddef
    cases hdr : (d.r != 0) with
    | true =>
      simp only [hdr, if_true]
      exact hsegd
    | false =>
      simp only [hdr, Bool.false_eq_true, if_false]
      cases hdm : d.bus.nodesModified with
      | true =>
        simp only [hdm, if_true]
        have := segP_comp H hsegd (ih d.bus d.found)
        simpa using this
      | false =>
        simp only [hdm, Bool.false_eq_true, if_false]
        exact hsegd

theorem process_tail_invoked (m : Msg) (d : DispatchRes) :
    (process_tail m d).invoked = d.invoked := by
  unfold process_tail
  split_ifs <;> rfl

theorem process_tail_bus (m : Msg) (d : DispatchRes) :
    (process_tail m d).bus = d.bus := by
  unfold process_tail
  split_ifs <;> rfl

/-- C6: during one `bus_process_object` dispatch of a method call whose
interface is not one of the standard ones, each node callback and each vtable
method member present at dispatch start is invoked at most once, across all
restarts of the dispatch loop, because a handler whose recorded
`last_iteration` equals the current iteration counter is skipped and invoking
a handler records the counter first.  `FreshActs` states that registration
calls made by handlers never recreate a handler identity that existed at
dispatch start (in C, a re-registered handler is a fresh allocation). -/
theorem c6_theorem (act : HId → EffectB) (std : StdHandlers) (fuel : Nat)
    (b : BusB) (m : Msg) (h : HId) (hf : FreshActs act (busHandles b))
    (hnr : nonReservedMsg m) (hh : h ∈ busHandles b) :
    (bus_process_object act std fuel b m).1.invoked.count h ≤ 1 := by
  unfold bus_process_object
  cases hmc : m.isMethodCall with
  | false => simp
  | true =>
    cases hne : busNodesEmpty b with
    | true => simp
    | false =>
      simp only [Bool.not_true, Bool.false_eq_true, if_false]
      have hseg := process_loop_segP act (busHandles b) hf std m hnr fuel b false
      set e := process_loop act std fuel b m false with hedef
      cases he2 : e.2 with
      | true =>
        simp only [he2, if_true]
        rw [process_tail_invoked]
        exact hseg.2.2.2.2 h hh
      | false =>
        simp only [he2, Bool.false_eq_true, if_false]
        exact hseg.2.2.2.2 h hh

/-- C6, witness: a bus with one node callback and one vtable method member;
handlers that perform no registrations trivially satisfy `FreshActs`, the
message addresses a user interface, and the callback is counted once. -/
theorem c6_witness :
    FreshActs (fun _ => EffectB.mk [] 0 false)
      (busHandles (BusB.mk [CB.mk "/x" 1 false 0]
        [VT.mk "/x" 5 "com.example.Foo" false none 0]
        [MB.mk "/x" "com.example.Foo" "Frob" 2 "" true 0 false 5 0] [] [] [] false 1
        true (Except.error (-1)) 0)) ∧
    nonReservedMsg (Msg.mk true "/x" (some "com.example.Foo") (some "Frob") "") ∧
    HId.cbH 1 ∈ busHandles (BusB.mk [CB.mk "/x" 1 false 0]
      [VT.mk "/x" 5 "com.example.Foo" false none 0]
      [MB.mk "/x" "com.example.Foo" "Frob" 2 "" true 0 false 5 0] [] [] [] false 1
      true (Except.error (-1)) 0) ∧
    ((bus_process_object (fun _ => EffectB.mk [] 0 false)
      (StdHandlers.mk (fun b _ _ _ f => DispatchRes.mk 0 b f [] [])
        (fun b _ _ _ f => DispatchRes.mk 0 b f [] [])
        (fun b _ _ _ f => DispatchRes.mk 0 b f [] []))
      3
      (BusB.mk [CB.mk "/x" 1 false 0]
        [VT.mk "/x" 5 "com.example.Foo" false none 0]
        [MB.mk "/x" "com.example.Foo" "Frob" 2 "" true 0 false 5 0] [] [] [] false 1
        true (Except.error (-1)) 0)
      (Msg.mk true "/x" (some "com.example.Foo") (some "Frob") "")).1.invoked.count
        (HId.cbH 1) ≤ 1) :=
  ⟨fun _ op hop => absurd hop (List.not_mem_nil op),
    by decide, by decide,
    c6_theorem (fun _ => EffectB.mk [] 0 false)
      (StdHandlers.mk (fun b _ _ _ f => DispatchRes.mk 0 b f [] [])
        (fun b _ _ _ f => DispatchRes.mk 0 b f [] [])
        (fun b _ _ _ f => DispatchRes.mk 0 b f [] []))
      3
      (BusB.mk [CB.mk "/x" 1 false 0]
        [VT.mk "/x" 5 "com.example.Foo" false none 0]
        [MB.mk "/x" "com.example.Foo" "Frob" 2 "" true 0 false 5 0] [] [] [] false 1
        true (Except.error (-1)) 0)
      (Msg.mk true "/x" (some "com.example.Foo") (some "Frob") "")
      (HId.cbH 1)
      (fun _ op hop => absurd hop (List.not_mem_nil op))
      (by decide) (by decide)⟩

/-! ## Claim C5: order of node callbacks -/

theorem node_callbacks_run_order (act : HId → EffectB) :
    ∀ (cbs : List CB) (b : BusB) (rf found : Bool),
      List.Sublist (node_callbacks_run act b rf found cbs).invoked
        (cbs.map (fun c => HId.cbH c.id)) := by
  intro cbs
  induction cbs with
  | nil =>
    intro b rf found
    exact List.nil_sublist _
  | cons c rest ih =>
    intro b rf found
    cases hmod : b.nodesModified with
    | true =>
      simp only [node_callbacks_run, hmod, if_true]
      exact List.nil_sublist _
    | false =>
      cases hrf : (rf && !c.isFallback) with
      | true =>
        simp only [node_callbacks_run, hmod, hrf, Bool.false_eq_true, if_false, if_true]
        exact (ih b rf found).cons _
      | false =>
        cases hfind : b.callbacks.find? (fun x => x.id == c.id) with
        | none =>
          simp only [node_callbacks_run, hmod, hrf, hfind, Bool.false_eq_true, if_false]
          exact (ih b rf true).cons _
        | some cc =>
          cases hit : (cc.lastIteration == b.iterationCounter) with
          | true =>
            simp only [node_callbacks_run, hmod, hrf, hfind, hit, Bool.false_eq_true,
              if_false, if_true]
            exact (ih b rf true).cons _
          | false =>
            cases hrs : ((bus_maybe_reply_error (act (HId.cbH c.id)).ret
                (act (HId.cbH c.id)).errSet).1 != 0) with
            | true =>
              simp only [node_callbacks_run, hmod, hrf, hfind, hit, hrs,
                Bool.false_eq_true, if_false, if_true]
              exact (List.nil_sublist _).cons₂ _
            | false =>
              simp only [node_callbacks_run, hmod, hrf, hfind, hit, hrs,
                Bool.false_eq_true, if_false]
              exact (ih (applyOps (markCB b c.id) (act (HId.cbH c.id)).ops) rf true).cons₂ _

/-- C5, counterexample.  Register callback 1 then callback 2 at `/x` through
`bus_add_object` and dispatch a method call to `/x`: the trace is
`[2, 1]` — the later-registered callback runs first, not `[1, 2]` as the
claim's registration order would require. -/
theorem c5_counterexample :
    (bus_process_object (fun _ => EffectB.mk [] 0 false)
      (StdHandlers.mk (fun b _ _ _ f => DispatchRes.mk 0 b f [] [])
        (fun b _ _ _ f => DispatchRes.mk 0 b f [] [])
        (fun b _ _ _ f => DispatchRes.mk 0 b f [] []))
      3
      (bus_add_object (fun _ => true)
        (bus_add_object (fun _ => true)
          (BusB.mk [] [] [] [] [] [] false 1 true (Except.error (-1)) 0)
          false "/x" 1).2
        false "/x" 2).2
      (Msg.mk true "/x" (some "com.example.Foo") (some "Frob") "")).1.invoked =
      [HId.cbH 2, HId.cbH 1] ∧
    [HId.cbH 2, HId.cbH 1] ≠ [HId.cbH 1, HId.cbH 2] := by
  constructor
  · decide
  · decide

/-- C5, amended: callbacks at a node are tried in reverse registration order —
`bus_add_object` prepends the new callback at the head of the node's callback
list, and `node_callbacks_run` walks the list from the head, so its invocation
trace follows the list order (a sublist of the snapshot's head-first ids);
later-registered callbacks therefore run before earlier-registered ones. -/
theorem c5_theorem :
    (∀ (validPath : String → Bool) (b : BusB) (fb : Bool) (p : String) (i : Nat),
      validPath p = true →
      (bus_add_object validPath b fb p i).2.callbacks = CB.mk p i fb 0 :: b.callbacks) ∧
    (∀ (act : HId → EffectB) (cbs : List CB) (b : BusB) (rf found : Bool),
      List.Sublist (node_callbacks_run act b rf found cbs).invoked
        (cbs.map (fun c => HId.cbH c.id))) := by
  constructor
  · intro validPath b fb p i hvp
    simp [bus_add_object, hvp]
  · intro act cbs b rf found
    exact node_callbacks_run_order act cbs b rf found

/-- C5, witness: the prepend equation at a concrete registration and the
trace-order sublist at a concrete two-callback node. -/
theorem c5_witness :
    ((fun (_ : String) => true) "/x" = true) ∧
    (bus_add_object (fun _ => true)
      (BusB.mk [CB.mk "/x" 1 false 0] [] [] [] [] [] false 1 true (Except.error (-1)) 0)
      false "/x" 2).2.callbacks =
      CB.mk "/x" 2 false 0 ::
        (BusB.mk [CB.mk "/x" 1 false 0] [] [] [] [] [] false 1 true
          (Except.error (-1)) 0).callbacks ∧
    List.Sublist
      (node_callbacks_run (fun _ => EffectB.mk [] 0 false)
        (BusB.mk [CB.mk "/x" 2 false 0, CB.mk "/x" 1 false 0] [] [] [] [] [] false 1 true
          (Except.error (-1)) 0) false false
        [CB.mk "/x" 2 false 0, CB.mk "/x" 1 false 0]).invoked
      [HId.cbH 2, HId.cbH 1] :=
  ⟨rfl,
    c5_theorem.1 (fun _ => true)
      (BusB.mk [CB.mk "/x" 1 false 0] [] [] [] [] [] false 1 true (Except.error (-1)) 0)
      false "/x" 2 rfl,
    c5_theorem.2 (fun _ => EffectB.mk [] 0 false)
      [CB.mk "/x" 2 false 0, CB.mk "/x" 1 false 0]
      (BusB.mk [CB.mk "/x" 2 false 0, CB.mk "/x" 1 false 0] [] [] [] [] [] false 1 true
        (Except.error (-1)) 0) false false⟩

/-! ## Replies produced during the dispatch loop (claim C1)

No handler path of the loop emits the `UNKNOWN_METHOD` / `UNKNOWN_PROPERTY`
error reply: handler failures become `handlerErrorReply`, signature mismatches
become `INVALID_ARGS`, NULL-handler methods a plain return.  The unknown-name
replies can therefore only come from the tail of `bus_process_object`. -/

def sentAllowed (s : Sent) : Prop :=
  s ≠ Sent.errorReply unknownMethodName ∧ s ≠ Sent.errorReply unknownPropertyName

theorem bus_maybe_reply_error_sentOK (r : Int) (e : Bool) :
    ∀ s ∈ (bus_maybe_reply_error r e).2, sentAllowed s := by
  intro s hs
  unfold bus_maybe_reply_error at hs
  split_ifs at hs <;> simp at hs <;> subst hs <;> exact ⟨by decide, by decide⟩

theorem node_callbacks_run_sentOK (act : HId → EffectB) :
    ∀ (cbs : List CB) (b : BusB) (rf found : Bool),
      ∀ s ∈ (node_callbacks_run act b rf found cbs).sent, sentAllowed s := by
  intro cbs
  induction cbs with
  | nil =>
    intro b rf found s hs
    cases hs
  | cons c rest ih =>
    intro b rf found
    cases hmod : b.nodesModified with
    | true =>
      simp only [node_callbacks_run, hmod, if_true]
      intro s hs
      cases hs
    | false =>
      cases hrf : (rf && !c.isFallback) with
      | true =>
        simp only [node_callbacks_run, hmod, hrf, Bool.false_eq_true, if_false, if_true]
        exact ih b rf found
      | false =>
        cases hfind : b.callbacks.find? (fun x => x.id == c.id) with
        | none =>
          simp only [node_callbacks_run, hmod, hrf, hfind, Bool.false_eq_true, if_false]
          exact ih b rf true
        | some cc =>
          cases hit : (cc.lastIteration == b.iterationCounter) with
          | true =>
            simp only [node_callbacks_run, hmod, hrf, hfind, hit, Bool.false_eq_true,
              if_false, if_true]
            exact ih b rf true
          | false =>
            cases hrs : ((bus_maybe_reply_error (act (HId.cbH c.id)).ret
                (act (HId.cbH c.id)).errSet).1 != 0) with
            | true =>
              simp only [node_callbacks_run, hmod, hrf, hfind, hit, hrs,
                Bool.false_eq_true, if_false, if_true]
              exact bus_maybe_reply_error_sentOK _ _
            | false =>
              simp only [node_callbacks_run, hmod, hrf, hfind, hit, hrs,
                Bool.false_eq_true, if_false]
              intro s hs
              rcases List.mem_append.mp hs with hs | hs
              · exact bus_maybe_reply_error_sentOK _ _ s hs
              · exact ih (applyOps (markCB b c.id) (act (HId.cbH c.id)).ops) rf true s hs

theorem method_callbacks_run_sentOK (act : HId → EffectB) (b : BusB) (m : Msg)
    (v : MB) (rf found : Bool) :
    ∀ s ∈ (method_callbacks_run act b m v rf found).sent, sentAllowed s := by
  intro s hs
  unfold method_callbacks_run at hs
  cases hpv : b.vtables.find? (fun w => w.path == v.path && w.vid == v.parentVid) with
  | none =>
    rw [hpv] at hs
    cases hs
  | some pv =>
    rw [hpv] at hs
    simp only at hs
    split_ifs at hs
    · cases hs
    · exact bus_maybe_reply_error_sentOK _ _ s hs
    · exact bus_maybe_reply_error_sentOK _ _ s hs
    · cases hs
    · cases hs
    · simp at hs
      subst hs
      exact ⟨by decide, by decide⟩
    · exact bus_maybe_reply_error_sentOK _ _ s hs
    · simp at hs
      subst hs
      exact ⟨by decide, by decide⟩

theorem object_find_and_run_sentOK (act : HId → EffectB) (std : StdHandlers)
    (b : BusB) (m : Msg) (p : String) (rf found : Bool) (hnr : nonReservedMsg m) :
    ∀ s ∈ (object_find_and_run act std b m p rf found).sent, sentAllowed s := by
  simp only [object_find_and_run]
  cases han : nodeAnchored b p with
  | false =>
    simp only [Bool.not_false, if_true]
    intro s hs
    cases hs
  | true =>
    simp only [Bool.not_true, Bool.false_eq_true, if_false]
    have hs1 := node_callbacks_run_sentOK act
      (b.callbacks.filter (fun c => c.path == p)) b rf found
    set d1 := node_callbacks_run act b rf found
      (b.callbacks.filter (fun c => c.path == p)) with hd1def
    cases hd1r : (d1.r != 0) with
    | true =>
      simp only [hd1r, if_true]
      exact hs1
    | false =>
      simp only [hd1r, Bool.false_eq_true, if_false]
      cases hd1m : d1.bus.nodesModified with
      | true =>
        simp only [hd1m, if_true]
        exact hs1
      | false =>
        simp only [hd1m, Bool.false_eq_true, if_false]
        cases hmi : m.interface with
        | none => exact hs1
        | some intf =>
          cases hmm : m.member with
          | none => exact hs1
          | some memb =>
            have h1 : intf ≠ ifaceProperties := by
              intro h
              exact hnr.1 (by rw [hmi, h])
            have h2 : intf ≠ ifaceIntrospectable := by
              intro h
              exact hnr.2.1 (by rw [hmi, h])
            have h3 : intf ≠ ifaceObjectManager := by
              intro h
              exact hnr.2.2 (by rw [hmi, h])
            cases hlm : lookupMethod d1.bus p intf memb with
            | none =>
              simp only [hlm]
              rw [std_branch_nonreserved std d1.bus m p rf d1.found intf memb h1 h2 h3]
              simp only [List.append_nil]
              split_ifs <;> exact hs1
            | some v =>
              have hsm := method_callbacks_run_sentOK act d1.bus m v rf d1.found
              simp only [hlm]
              set r2 := method_callbacks_run act d1.bus m v rf d1.found with hr2def
              rw [std_branch_nonreserved std r2.bus m p rf r2.found intf memb h1 h2 h3]
              simp only [List.append_nil]
              have hs2 : ∀ s ∈ d1.sent ++ r2.sent, sentAllowed s := by
                intro s hs
                rcases List.mem_append.mp hs with hs | hs
                · exact hs1 s hs
                · exact hsm s hs
              split_ifs <;> exact hs2

theorem fallback_scan_sentOK (act : HId → EffectB) (std : StdHandlers) (m : Msg)
    (hnr : nonReservedMsg m) :
    ∀ (pfxs : List String) (b : BusB) (found : Bool),
      ∀ s ∈ (fallback_scan act std b m found pfxs).sent, sentAllowed s := by
  intro pfxs
  induction pfxs with
  | nil =>
    intro b found s hs
    cases hs
  | cons pfx rest ih =>
    intro b found
    cases hmod : b.nodesModified with
    | true =>
      simp only [fallback_scan, hmod, if_true]
      intro s hs
      cases hs
    | false =>
      simp only [fallback_scan, hmod, Bool.false_eq_true, if_false]
      have hs1 := object_find_and_run_sentOK act std b m pfx true found hnr
      set d := object_find_and_run act std b m pfx true found with hddef
      cases hdr : (d.r != 0) with
      | true =>
        simp only [hdr, if_true]
        exact hs1
      | false =>
        simp only [hdr, Bool.false_eq_true, if_false]
        intro s hs
        rcases List.mem_append.mp hs with hs | hs
        · exact hs1 s hs
        · exact ih d.bus d.found s hs

theorem dispatch_attempt_sentOK (act : HId → EffectB) (std : StdHandlers) (b : BusB)
    (m : Msg) (found : Bool) (hnr : nonReservedMsg m) :
    ∀ s ∈ (dispatch_attempt act std b m found).sent, sentAllowed s := by
  simp only [dispatch_attempt]
  have hs1 := object_find_and_run_sentOK act std { b with nodesModified := false }
    m m.path false found hnr
  set d := object_find_and_run act std { b with nodesModified := false } m m.path
    false found with hddef
  cases hdr : (d.r != 0) with
  | true =>
    simp only [hdr, if_true]
    exact hs1
  | false =>
    simp only [hdr, Bool.false_eq_true, if_false]
    intro s hs
    rcases List.mem_append.mp hs with hs | hs
    · exact hs1 s hs
    · exact fallback_scan_sentOK act std m hnr (pathPrefixes m.path) d.bus d.found s hs

theorem process_loop_sentOK (act : HId → EffectB) (std : StdHandlers) (m : Msg)
    (hnr : nonReservedMsg m) :
    ∀ (fuel : Nat) (b : BusB) (found : Bool),
      ∀ s ∈ (process_loop act std fuel b m found).1.sent, sentAllowed s := by
  intro fuel
  induction fuel with
  | zero =>
    intro b found s hs
    cases hs
  | succ fuel ih =>
    intro b found
    simp only [process_loop]
    have hsd := dispatch_attempt_sentOK act std b m found hnr
    set d := dispatch_attempt act std b m found with hddef
    cases hdr : (d.r != 0) with
    | true =>
      simp only [hdr, if_true]
      exact hsd
    | false =>
      simp only [hdr, Bool.false_eq_true, if_false]
      cases hdm : d.bus.nodesModified with
      | true =>
        simp only [hdm, if_true]
        intro s hs
        rcases List.mem_append.mp hs with hs | hs
        · exact hsd s hs
        · exact ih d.bus d.found s hs
      | false =>
        simp only [hdm, Bool.false_eq_true, if_false]
        exact hsd

/-- C1, counterexample.  A bus with a node at `/a` receives a method call for
`/b`: no handler runs, no handler reports `found_object`, so the claim demands
an `UNKNOWN_METHOD` reply — but `bus_process_object` returns 0 having sent
nothing (`if (!found_object) return 0;` precedes the error reply, so the reply
is sent exactly when `found_object` WAS reported, not when it was not). -/
theorem c1_counterexample :
    (bus_process_object (fun _ => EffectB.mk [] 0 false)
      (StdHandlers.mk (fun b _ _ _ f => DispatchRes.mk 0 b f [] [])
        (fun b _ _ _ f => DispatchRes.mk 0 b f [] [])
        (fun b _ _ _ f => DispatchRes.mk 0 b f [] []))
      3
      (BusB.mk [CB.mk "/a" 1 false 0] [] [] [] [] [] false 1 true (Except.error (-1)) 0)
      (Msg.mk true "/b" (some "com.example.Foo") (some "Frob") "")).1.invoked = [] ∧
    (bus_process_object (fun _ => EffectB.mk [] 0 false)
      (StdHandlers.mk (fun b _ _ _ f => DispatchRes.mk 0 b f [] [])
        (fun b _ _ _ f => DispatchRes.mk 0 b f [] [])
        (fun b _ _ _ f => DispatchRes.mk 0 b f [] []))
      3
      (BusB.mk [CB.mk "/a" 1 false 0] [] [] [] [] [] false 1 true (Except.error (-1)) 0)
      (Msg.mk true "/b" (some "com.example.Foo") (some "Frob") "")).1.found = false ∧
    (bus_process_object (fun _ => EffectB.mk [] 0 false)
      (StdHandlers.mk (fun b _ _ _ f => DispatchRes.mk 0 b f [] [])
        (fun b _ _ _ f => DispatchRes.mk 0 b f [] [])
        (fun b _ _ _ f => DispatchRes.mk 0 b f [] []))
      3
      (BusB.mk [CB.mk "/a" 1 false 0] [] [] [] [] [] false 1 true (Except.error (-1)) 0)
      (Msg.mk true "/b" (some "com.example.Foo") (some "Frob") "")).1.sent = [] ∧
    (bus_process_object (fun _ => EffectB.mk [] 0 false)
      (StdHandlers.mk (fun b _ _ _ f => DispatchRes.mk 0 b f [] [])
        (fun b _ _ _ f => DispatchRes.mk 0 b f [] [])
        (fun b _ _ _ f => DispatchRes.mk 0 b f [] []))
      3
      (BusB.mk [CB.mk "/a" 1 false 0] [] [] [] [] [] false 1 true (Except.error (-1)) 0)
      (Msg.mk true "/b" (some "com.example.Foo") (some "Frob") "")).1.r = 0 ∧
    (bus_process_object (fun _ => EffectB.mk [] 0 false)
      (StdHandlers.mk (fun b _ _ _ f => DispatchRes.mk 0 b f [] [])
        (fun b _ _ _ f => DispatchRes.mk 0 b f [] [])
        (fun b _ _ _ f => DispatchRes.mk 0 b f [] []))
      3
      (BusB.mk [CB.mk "/a" 1 false 0] [] [] [] [] [] false 1 true (Except.error (-1)) 0)
      (Msg.mk true "/b" (some "com.example.Foo") (some "Frob") "")).2 = true := by
  refine ⟨by decide, by decide, by decide, by decide, by decide⟩

/-- C1, amended: for a dispatched method call (non-reserved interface,
non-empty store, loop terminating), the `UNKNOWN_METHOD` reply is sent
exactly when the dispatch loop completed with every handler returning zero
AND some handler reported `found_object`; when `found_object` was not
reported, the tail returns 0 and sends nothing.  For `Properties.Get`/`Set`
calls the tail reply would be `UNKNOWN_PROPERTY` instead, as the last two
conjuncts state for `process_tail` in general. -/
theorem c1_theorem (act : HId → EffectB) (std : StdHandlers) (fuel : Nat)
    (b : BusB) (m : Msg) (hmc : m.isMethodCall = true)
    (hne : busNodesEmpty b = false) (hnr : nonReservedMsg m)
    (hcomp : (bus_process_object act std fuel b m).2 = true) :
    (Sent.errorReply unknownMethodName ∈ (bus_process_object act std fuel b m).1.sent ↔
      ((process_loop act std fuel b m false).1.r = 0 ∧
        (process_loop act std fuel b m false).1.found = true)) ∧
    Sent.errorReply unknownPropertyName ∉ (bus_process_object act std fuel b m).1.sent ∧
    (∀ (m2 : Msg) (d : DispatchRes), d.r = 0 → d.found = true →
      (process_tail m2 d).sent = d.sent ++
        [Sent.errorReply (if is_properties_get_set m2 then unknownPropertyName
          else unknownMethodName)]) ∧
    (∀ (m2 : Msg) (d : DispatchRes), d.r = 0 → d.found = false →
      process_tail m2 d = DispatchRes.mk 0 d.bus d.found d.invoked d.sent) := by
  have hpgs : is_properties_get_set m = false := by
    unfold is_properties_get_set
    have hip : (m.interface == some ifaceProperties) = false := by
      cases hmi2 : m.interface with
      | none => rfl
      | some s =>
        have hsne : s ≠ ifaceProperties := by
          intro h
          exact hnr.1 (by rw [hmi2, h])
        simp [hsne]
    simp [hip]
  have hloopOK := process_loop_sentOK act std m hnr fuel b false
  have htail3 : ∀ (m2 : Msg) (d : DispatchRes), d.r = 0 → d.found = true →
      (process_tail m2 d).sent = d.sent ++
        [Sent.errorReply (if is_properties_get_set m2 then unknownPropertyName
          else unknownMethodName)] := by
    intro m2 d hr hf
    unfold process_tail
    rw [hr, hf]
    simp only [bne_self_eq_false, Bool.false_eq_true, if_false, Bool.not_true]
    cases hp : is_properties_get_set m2 with
    | true => simp [hp]
    | false => simp [hp]
  have htail4 : ∀ (m2 : Msg) (d : DispatchRes), d.r = 0 → d.found = false →
      process_tail m2 d = DispatchRes.mk 0 d.bus d.found d.invoked d.sent := by
    intro m2 d hr hf
    unfold process_tail
    rw [hr, hf]
    simp
  unfold bus_process_object at hcomp ⊢
  rw [hmc] at hcomp ⊢
  rw [hne] at hcomp ⊢
  simp only [Bool.not_true, Bool.false_eq_true, if_false] at hcomp ⊢
  set e := process_loop act std fuel b m false with hedef
  cases he2 : e.2 with
  | false =>
    rw [he2] at hcomp
    simp at hcomp
  | true =>
    simp only [eq_self_iff_true, if_true]
    refine ⟨?_, ?_, htail3, htail4⟩
    · by_cases her : e.1.r = 0
      · by_cases hef : e.1.found = true
        · rw [htail3 m e.1 her hef, hpgs]
          simp only [Bool.false_eq_true, if_false]
          constructor
          · intro _
            exact ⟨her, hef⟩
          · intro _
            exact List.mem_append.mpr (Or.inr (List.mem_singleton.mpr rfl))
        · have heff : e.1.found = false := by
            simpa using hef
          rw [htail4 m e.1 her heff]
          constructor
          · intro hmem
            exact absurd rfl (hloopOK _ hmem).1
          · intro hco
            rw [hco.2] at heff
            cases heff
      · have hproc : process_tail m e.1 = e.1 := by
          unfold process_tail
          have : (e.1.r != 0) = true := by
            simpa using her
          rw [this]
          simp
        rw [hproc]
        constructor
        · intro hmem
          exact absurd rfl (hloopOK _ hmem).1
        · intro hco
          exact absurd hco.1 her
    · by_cases her : e.1.r = 0
      · by_cases hef : e.1.found = true
        · rw [htail3 m e.1 her hef, hpgs]
          simp only [Bool.false_eq_true, if_false]
          intro hmem
          rcases List.mem_append.mp hmem with hmem | hmem
          · exact absurd rfl (hloopOK _ hmem).2
          · have := List.mem_singleton.mp hmem
            simp only [Sent.errorReply.injEq] at this
            exact absurd this.symm (by decide)
        · have heff : e.1.found = false := by
            simpa using hef
          rw [htail4 m e.1 her heff]
          intro hmem
          exact absurd rfl (hloopOK _ hmem).2
      · have hproc : process_tail m e.1 = e.1 := by
          unfold process_tail
          have : (e.1.r != 0) = true := by
            simpa using her
          rw [this]
          simp
        rw [hproc]
        intro hmem
        exact absurd rfl (hloopOK _ hmem).2

/-- C1, witness: one callback at `/x` returning 0 and a call to `/x` — the
loop completes with return 0 and `found_object` reported, and the
`UNKNOWN_METHOD` reply is sent. -/
theorem c1_witness :
    (Msg.mk true "/x" (some "com.example.Foo") (some "Frob") "").isMethodCall = true ∧
    busNodesEmpty (BusB.mk [CB.mk "/x" 1 false 0] [] [] [] [] [] false 1 true
      (Except.error (-1)) 0) = false ∧
    nonReservedMsg (Msg.mk true "/x" (some "com.example.Foo") (some "Frob") "") ∧
    (Sent.errorReply unknownMethodName ∈
      (bus_process_object (fun _ => EffectB.mk [] 0 false)
        (StdHandlers.mk (fun b _ _ _ f => DispatchRes.mk 0 b f [] [])
          (fun b _ _ _ f => DispatchRes.mk 0 b f [] [])
          (fun b _ _ _ f => DispatchRes.mk 0 b f [] []))
        3
        (BusB.mk [CB.mk "/x" 1 false 0] [] [] [] [] [] false 1 true
          (Except.error (-1)) 0)
        (Msg.mk true "/x" (some "com.example.Foo") (some "Frob") "")).1.sent ↔
      ((process_loop (fun _ => EffectB.mk [] 0 false)
        (StdHandlers.mk (fun b _ _ _ f => DispatchRes.mk 0 b f [] [])
          (fun b _ _ _ f => DispatchRes.mk 0 b f [] [])
          (fun b _ _ _ f => DispatchRes.mk 0 b f [] []))
        3
        (BusB.mk [CB.mk "/x" 1 false 0] [] [] [] [] [] false 1 true
          (Except.error (-1)) 0)
        (Msg.mk true "/x" (some "com.example.Foo") (some "Frob") "") false).1.r = 0 ∧
       (process_loop (fun _ => EffectB.mk [] 0 false)
        (StdHandlers.mk (fun b _ _ _ f => DispatchRes.mk 0 b f [] [])
          (fun b _ _ _ f => DispatchRes.mk 0 b f [] [])
          (fun b _ _ _ f => DispatchRes.mk 0 b f [] []))
        3
        (BusB.mk [CB.mk "/x" 1 false 0] [] [] [] [] [] false 1 true
          (Except.error (-1)) 0)
        (Msg.mk true "/x" (some "com.example.Foo") (some "Frob") "") false).1.found =
          true)) :=
  ⟨rfl, rfl, by decide,
    (c1_theorem (fun _ => EffectB.mk [] 0 false)
      (StdHandlers.mk (fun b _ _ _ f => DispatchRes.mk 0 b f [] [])
        (fun b _ _ _ f => DispatchRes.mk 0 b f [] [])
        (fun b _ _ _ f => DispatchRes.mk 0 b f [] []))
      3
      (BusB.mk [CB.mk "/x" 1 false 0] [] [] [] [] [] false 1 true (Except.error (-1)) 0)
      (Msg.mk true "/x" (some "com.example.Foo") (some "Frob") "")
      rfl rfl (by decide) (by decide)).1⟩

/-! ## Claim C7: PropertiesChanged partitioning -/

def anyInvalidating (b : BusB) (pfx intf : String) (ns : List String) : Bool :=
  ns.any (fun nm =>
    match propFind b pfx intf nm with
    | some pb => pb.invalidateOnly
    | none => false)

def anyChanging (b : BusB) (pfx intf : String) (ns : List String) : Bool :=
  ns.any (fun nm =>
    match propFind b pfx intf nm with
    | some pb => !pb.invalidateOnly
    | none => false)

/-- The well-formedness of a name list against a vtable `c`: every name is
valid, found in the property index with `c` as parent, and its getter
succeeds. -/
def NamesGood (memberValid : String → Bool) (b : BusB) (pfx intf : String) (c : VT)
    (ns : List String) : Prop :=
  ∀ nm ∈ ns, memberValid nm = true ∧
    ∃ pb, propFind b pfx intf nm = some pb ∧ pb.parentVid = c.vid ∧ 0 ≤ pb.getRet

theorem pass1Names_ok_spec (memberValid : String → Bool) (b : BusB)
    (pfx intf : String) (c : VT) (hmod : b.nodesModified = false) :
    ∀ (ns : List String) (hi hc : Bool) (acc : List (String × Nat)),
      NamesGood memberValid b pfx intf c ns →
      (∀ nm ∈ ns, ∀ pb, propFind b pfx intf nm = some pb → pb.emitsChange = true) →
      pass1Names memberValid b pfx intf c ns hi hc acc =
        Except.ok (hi || anyInvalidating b pfx intf ns,
          hc || anyChanging b pfx intf ns,
          acc ++ changedOf b pfx intf ns) := by
  intro ns
  induction ns with
  | nil =>
    intro hi hc acc _ _
    simp [pass1Names, anyInvalidating, anyChanging, changedOf]
  | cons nm rest ih =>
    intro hi hc acc hgood hec
    obtain ⟨hmv, pb, hfind, hpar, hget⟩ := hgood nm (List.mem_cons_self _ _)
    have hecb : pb.emitsChange = true := hec nm (List.mem_cons_self _ _) pb hfind
    have hgood' : NamesGood memberValid b pfx intf c rest :=
      fun x hx => hgood x (List.mem_cons_of_mem _ hx)
    have hec' : ∀ x ∈ rest, ∀ q, propFind b pfx intf x = some q → q.emitsChange = true :=
      fun x hx => hec x (List.mem_cons_of_mem _ hx)
    have hparne : (pb.parentVid != c.vid) = false := by
      simp [hpar]
    have hgetlt : ¬ pb.getRet < 0 := by omega
    cases hio : pb.invalidateOnly with
    | true =>
      rw [pass1Names]
      rw [hmv]
      simp only [Bool.not_true, Bool.false_eq_true, if_false, hfind]
      rw [hparne, hecb, hio]
      simp only [Bool.not_true, Bool.false_eq_true, if_false, if_true]
      rw [ih true hc acc hgood' hec']
      simp [anyInvalidating, anyChanging, changedOf, hfind, hio, Bool.or_assoc]
    | false =>
      rw [pass1Names]
      rw [hmv]
      simp only [Bool.not_true, Bool.false_eq_true, if_false, hfind]
      rw [hparne, hecb, hio]
      simp only [Bool.not_true, Bool.false_eq_true, if_false, if_true,
        if_neg hgetlt, hmod]
      rw [ih hi true (acc ++ [(nm, pb.value)]) hgood' hec']
      simp [anyInvalidating, anyChanging, changedOf, hfind, hio, Bool.or_assoc]

theorem pass1Names_edom (memberValid : String → Bool) (b : BusB)
    (pfx intf : String) (c : VT) (hmod : b.nodesModified = false) :
    ∀ (ns : List String) (hi hc : Bool) (acc : List (String × Nat)),
      NamesGood memberValid b pfx intf c ns →
      (∃ nm ∈ ns, ∃ pb, propFind b pfx intf nm = some pb ∧ pb.emitsChange = false) →
      pass1Names memberValid b pfx intf c ns hi hc acc = Except.error (-EDOM) := by
  intro ns
  induction ns with
  | nil =>
    intro hi hc acc _ hbad
    obtain ⟨nm, hnm, _⟩ := hbad
    cases hnm
  | cons nm rest ih =>
    intro hi hc acc hgood hbad
    obtain ⟨hmv, pb, hfind, hpar, hget⟩ := hgood nm (List.mem_cons_self _ _)
    have hgood' : NamesGood memberValid b pfx intf c rest :=
      fun x hx => hgood x (List.mem_cons_of_mem _ hx)
    have hparne : (pb.parentVid != c.vid) = false := by
      simp [hpar]
    have hgetlt : ¬ pb.getRet < 0 := by omega
    cases hecb : pb.emitsChange with
    | false =>
      rw [pass1Names]
      rw [hmv]
      simp only [Bool.not_true, Bool.false_eq_true, if_false, hfind]
      rw [hparne, hecb]
      simp
    | true =>
      have hbad' : ∃ x ∈ rest, ∃ q, propFind b pfx intf x = some q ∧
          q.emitsChange = false := by
        obtain ⟨x, hx, q, hqfind, hqec⟩ := hbad
        rcases List.mem_cons.mp hx with hx | hx
        · exfalso
          rw [hx] at hqfind
          rw [hqfind] at hfind
          have : q = pb := by
            injection hfind
          rw [this] at hqec
          rw [hqec] at hecb
          cases hecb
        · exact ⟨x, hx, q, hqfind, hqec⟩
      rw [pass1Names]
      rw [hmv]
      simp only [Bool.not_true, Bool.false_eq_true, if_false, hfind]
      rw [hparne, hecb]
      cases hio : pb.invalidateOnly with
      | true =>
        simp only [Bool.not_true, Bool.false_eq_true, if_false, if_true]
        exact ih true hc acc hgood' hbad'
      | false =>
        simp only [Bool.not_true, Bool.not_false, Bool.false_eq_true, if_false,
          if_true, if_neg hgetlt, hmod]
        exact ih hi true (acc ++ [(nm, pb.value)]) hgood' hbad'

theorem pass2Names_spec (b : BusB) (pfx intf : String) (c : VT) :
    ∀ (ns : List String),
      (∀ nm ∈ ns, ∃ pb, propFind b pfx intf nm = some pb ∧ pb.parentVid = c.vid) →
      pass2Names b pfx intf c ns = invalidatedOf b pfx intf ns := by
  intro ns
  induction ns with
  | nil =>
    intro _
    rfl
  | cons nm rest ih =>
    intro hgood
    obtain ⟨pb, hfind, hpar⟩ := hgood nm (List.mem_cons_self _ _)
    have ih' := ih (fun x hx => hgood x (List.mem_cons_of_mem _ hx))
    have hparne : (pb.parentVid != c.vid) = false := by
      simp [hpar]
    unfold invalidatedOf at ih' ⊢
    rw [pass2Names]
    simp only [hfind, hparne, Bool.false_eq_true, if_false]
    rw [List.filter_cons]
    cases hio : pb.invalidateOnly with
    | true =>
      simp only [hfind, hio, Bool.not_true, Bool.false_eq_true, if_false, if_true]
      rw [ih']
    | false =>
      simp only [hfind, hio, Bool.not_false, Bool.false_eq_true, if_false, if_true]
      exact ih'

theorem invalidatedOf_nil_of_noInv (b : BusB) (pfx intf : String) :
    ∀ (ns : List String), anyInvalidating b pfx intf ns = false →
      invalidatedOf b pfx intf ns = [] := by
  intro ns
  induction ns with
  | nil =>
    intro _
    rfl
  | cons nm rest ih =>
    intro h
    simp only [anyInvalidating, List.any_cons, Bool.or_eq_false_iff] at h
    unfold invalidatedOf
    rw [List.filter_cons]
    cases hfind : propFind b pfx intf nm with
    | none =>
      simp only [hfind]
      simp only [Bool.false_eq_true, if_false]
      exact ih (by simpa [anyInvalidating] using h.2)
    | some pb =>
      have hio : pb.invalidateOnly = false := by
        have := h.1
        rw [hfind] at this
        exact this
      simp only [hfind, hio]
      simp only [Bool.false_eq_true, if_false]
      exact ih (by simpa [anyInvalidating] using h.2)

theorem objectPathStartswith_self (p : String) : objectPathStartswith p p = true := by
  by_cases h : p = rootPath <;> simp [objectPathStartswith, h]

theorem pass1Vts_single (memberValid : String → Bool) (b : BusB)
    (pfx path intf : String) (names : List String) (c : VT)
    (hcif : c.interface = intf) (hcf : c.find = none)
    (hmod : b.nodesModified = false) (hi hc : Bool) (acc : List (String × Nat)) :
    pass1Vts memberValid b pfx path intf false names [c] hi hc acc =
      pass1Names memberValid b pfx intf c names hi hc acc := by
  have hgu : node_vtable_get_userdata c path = 1 := by
    simp [node_vtable_get_userdata, hcf]
  rw [pass1Vts]
  simp only [hcif, hgu, hmod, Bool.false_and, bne_self_eq_false, Bool.false_eq_true,
    if_false]
  have h1 : ¬ ((1 : Int) < 0) := by norm_num
  have h2 : ((1 : Int) == 0) = false := by decide
  simp only [h1, h2, if_neg, if_false, Bool.false_eq_true]
  cases hp : pass1Names memberValid b pfx intf c names hi hc acc with
  | error e => simp
  | ok t =>
    obtain ⟨t1, t2, t3⟩ := t
    simp [pass1Vts]

theorem pass2Vts_single (b : BusB) (pfx path intf : String) (names : List String)
    (c : VT) (hcif : c.interface = intf) (hcf : c.find = none)
    (hmod : b.nodesModified = false) :
    pass2Vts b pfx path intf false names [c] =
      Except.ok (pass2Names b pfx intf c names) := by
  have hgu : node_vtable_get_userdata c path = 1 := by
    simp [node_vtable_get_userdata, hcf]
  rw [pass2Vts]
  simp only [hcif, hgu, hmod, Bool.false_and, bne_self_eq_false, Bool.false_eq_true,
    if_false]
  have h1 : ¬ ((1 : Int) < 0) := by norm_num
  have h2 : ((1 : Int) == 0) = false := by decide
  simp only [h1, h2, if_neg, if_false, Bool.false_eq_true]
  simp [pass2Vts]

theorem nodeAnchored_of_vtable (b : BusB) (path : String) (c : VT)
    (hvts : b.vtables.filter (fun v => v.path == path) = [c]) :
    nodeAnchored b path = true := by
  have hcmem : c ∈ b.vtables.filter (fun v => v.path == path) := by
    rw [hvts]
    exact List.mem_singleton_self c
  have hmem := (List.mem_filter.mp hcmem).1
  have hpeq : c.path = path := by
    have := (List.mem_filter.mp hcmem).2
    simpa using this
  have hsw : objectPathStartswith c.path path = true := by
    rw [hpeq]
    exact objectPathStartswith_self path
  simp only [nodeAnchored, Bool.or_eq_true, List.any_eq_true]
  exact Or.inl (Or.inl (Or.inr ⟨c, hmem, hsw⟩))

theorem emit_single_ok (memberValid : String → Bool) (b : BusB) (path intf : String)
    (names : List String) (c : VT)
    (hvts : b.vtables.filter (fun v => v.path == path) = [c])
    (hcif : c.interface = intf) (hcf : c.find = none)
    (hmod : b.nodesModified = false) (hnm : names ≠ [])
    (hgood : NamesGood memberValid b path intf c names)
    (hec : ∀ nm ∈ names, ∀ pb, propFind b path intf nm = some pb →
      pb.emitsChange = true) :
    emit_properties_changed_on_interface memberValid b path path intf false names =
      (1, some (SigMsg.mk intf (changedOf b path intf names)
        (invalidatedOf b path intf names))) := by
  have hanch := nodeAnchored_of_vtable b path c hvts
  unfold emit_properties_changed_on_interface
  rw [hanch, hvts]
  simp only [Bool.not_true, Bool.false_eq_true, if_false]
  rw [pass1Vts_single memberValid b path path intf names c hcif hcf hmod,
    pass1Names_ok_spec memberValid b path intf c hmod names false false [] hgood hec]
  simp only [Bool.false_or, List.nil_append]
  have hone : (!anyInvalidating b path intf names && !anyChanging b path intf names) =
      false := by
    obtain ⟨n0, rest, hsplit⟩ := List.exists_cons_of_ne_nil hnm
    obtain ⟨hmv0, pb0, hfind0, _, _⟩ := hgood n0 (by rw [hsplit]; exact List.mem_cons_self _ _)
    cases hio : pb0.invalidateOnly with
    | true =>
      have : anyInvalidating b path intf names = true := by
        rw [hsplit]
        simp only [anyInvalidating, List.any_cons, hfind0, hio, Bool.true_or]
      rw [this]
      simp
    | false =>
      have : anyChanging b path intf names = true := by
        rw [hsplit]
        simp only [anyChanging, List.any_cons, hfind0, hio, Bool.not_false, Bool.true_or]
      rw [this]
      simp
  rw [hone]
  simp only [Bool.false_eq_true, if_false]
  have hparents : ∀ nm ∈ names, ∃ pb, propFind b path intf nm = some pb ∧
      pb.parentVid = c.vid := by
    intro nm hn
    obtain ⟨_, pb, hf, hp, _⟩ := hgood nm hn
    exact ⟨pb, hf, hp⟩
  cases hinv : anyInvalidating b path intf names with
  | true =>
    simp only [if_true]
    rw [pass2Vts_single b path path intf names c hcif hcf hmod,
      pass2Names_spec b path intf c names hparents]
  | false =>
    simp only [Bool.false_eq_true, if_false]
    rw [invalidatedOf_nil_of_noInv b path intf names hinv]

theorem emit_single_edom (memberValid : String → Bool) (b : BusB) (path intf : String)
    (names : List String) (c : VT)
    (hvts : b.vtables.filter (fun v => v.path == path) = [c])
    (hcif : c.interface = intf) (hcf : c.find = none)
    (hmod : b.nodesModified = false)
    (hgood : NamesGood memberValid b path intf c names)
    (hbad : ∃ nm ∈ names, ∃ pb, propFind b path intf nm = some pb ∧
      pb.emitsChange = false) :
    emit_properties_changed_on_interface memberValid b path path intf false names =
      (-EDOM, none) := by
  have hanch := nodeAnchored_of_vtable b path c hvts
  unfold emit_properties_changed_on_interface
  rw [hanch, hvts]
  simp only [Bool.not_true, Bool.false_eq_true, if_false]
  rw [pass1Vts_single memberValid b path path intf names c hcif hcf hmod,
    pass1Names_edom memberValid b path intf c hmod names false false [] hgood hbad]

/-- C7: for a PropertiesChanged emission over a non-empty name list against a
single matching vtable: if every named property carries `EMITS_CHANGE`, one
signal is sent whose changed dictionary holds exactly the named properties
without `INVALIDATE_ONLY` together with their values and whose invalidated
array holds exactly the names of those with `INVALIDATE_ONLY`; if some named
property lacks `EMITS_CHANGE`, the call returns the programmer error `-EDOM`
and no message is sent. -/
theorem c7_theorem (memberValid : String → Bool) (fuel : Nat) (b : BusB)
    (path intf : String) (names : List String) (c : VT)
    (hvts : b.vtables.filter (fun v => v.path == path) = [c])
    (hcif : c.interface = intf) (hcf : c.find = none) (hnm : names ≠ [])
    (hgood : NamesGood memberValid b path intf c names) :
    ((∀ nm ∈ names, ∀ pb, propFind b path intf nm = some pb →
        pb.emitsChange = true) →
      sd_bus_emit_properties_changed_strv memberValid (fuel + 1) b path intf names =
        some (1, [SigMsg.mk intf (changedOf b path intf names)
          (invalidatedOf b path intf names)], [1])) ∧
    ((∃ nm ∈ names, ∃ pb, propFind b path intf nm = some pb ∧
        pb.emitsChange = false) →
      sd_bus_emit_properties_changed_strv memberValid (fuel + 1) b path intf names =
        some (-EDOM, [], [-EDOM])) := by
  have hne2 : names.isEmpty = false := by
    cases names with
    | nil => exact absurd rfl hnm
    | cons x xs => rfl
  constructor
  · intro hec
    have hinner := emit_single_ok memberValid { b with nodesModified := false }
      path intf names c hvts hcif hcf rfl hnm hgood hec
    unfold sd_bus_emit_properties_changed_strv
    rw [hne2]
    simp only [Bool.false_eq_true, if_false]
    rw [strv_attempts]
    rw [hinner]
    simp
    exact ⟨rfl, rfl⟩
  · intro hbad
    have hinner := emit_single_edom memberValid { b with nodesModified := false }
      path intf names c hvts hcif hcf rfl hgood hbad
    unfold sd_bus_emit_properties_changed_strv
    rw [hne2]
    simp only [Bool.false_eq_true, if_false]
    rw [strv_attempts]
    rw [hinner]
    have : ((-EDOM : Int) != 0) = true := by decide
    simp [this, EDOM]

/-- C7, witness: one vtable at `/p` with property `P` (`EMITS_CHANGE`) and
property `R` (`EMITS_CHANGE|INVALIDATE_ONLY`); emitting for `["P", "R"]`
sends one signal with changed `{P: 42}` and invalidated `["R"]`. -/
theorem c7_witness :
    (BusB.mk [] [VT.mk "/p" 1 "com.example.I" false none 0] []
      [PB.mk "/p" "com.example.I" "P" 1 true false 0 42,
       PB.mk "/p" "com.example.I" "R" 1 true true 0 7] [] [] false 1 true
      (Except.error (-1)) 0).vtables.filter (fun v => v.path == "/p") =
      [VT.mk "/p" 1 "com.example.I" false none 0] ∧
    NamesGood (fun _ => true)
      (BusB.mk [] [VT.mk "/p" 1 "com.example.I" false none 0] []
        [PB.mk "/p" "com.example.I" "P" 1 true false 0 42,
         PB.mk "/p" "com.example.I" "R" 1 true true 0 7] [] [] false 1 true
        (Except.error (-1)) 0) "/p" "com.example.I"
      (VT.mk "/p" 1 "com.example.I" false none 0) ["P", "R"] ∧
    sd_bus_emit_properties_changed_strv (fun _ => true) 3
      (BusB.mk [] [VT.mk "/p" 1 "com.example.I" false none 0] []
        [PB.mk "/p" "com.example.I" "P" 1 true false 0 42,
         PB.mk "/p" "com.example.I" "R" 1 true true 0 7] [] [] false 1 true
        (Except.error (-1)) 0) "/p" "com.example.I" ["P", "R"] =
      some (1, [SigMsg.mk "com.example.I" [("P", 42)] ["R"]], [1]) := by
  have hgood : NamesGood (fun _ => true)
      (BusB.mk [] [VT.mk "/p" 1 "com.example.I" false none 0] []
        [PB.mk "/p" "com.example.I" "P" 1 true false 0 42,
         PB.mk "/p" "com.example.I" "R" 1 true true 0 7] [] [] false 1 true
        (Except.error (-1)) 0) "/p" "com.example.I"
      (VT.mk "/p" 1 "com.example.I" false none 0) ["P", "R"] := by
    intro nm hnm
    fin_cases hnm
    · exact ⟨rfl, PB.mk "/p" "com.example.I" "P" 1 true false 0 42, by decide, rfl,
        by norm_num⟩
    · exact ⟨rfl, PB.mk "/p" "com.example.I" "R" 1 true true 0 7, by decide, rfl,
        by norm_num⟩
  have hec : ∀ nm ∈ ["P", "R"], ∀ (pb : PB),
      propFind (BusB.mk [] [VT.mk "/p" 1 "com.example.I" false none 0] []
        [PB.mk "/p" "com.example.I" "P" 1 true false 0 42,
         PB.mk "/p" "com.example.I" "R" 1 true true 0 7] [] [] false 1 true
        (Except.error (-1)) 0) "/p" "com.example.I" nm = some pb →
      pb.emitsChange = true := by
    intro nm hnm pb hpb
    fin_cases hnm
    · have h2 : propFind (BusB.mk [] [VT.mk "/p" 1 "com.example.I" false none 0] []
          [PB.mk "/p" "com.example.I" "P" 1 true false 0 42,
           PB.mk "/p" "com.example.I" "R" 1 true true 0 7] [] [] false 1 true
          (Except.error (-1)) 0) "/p" "com.example.I" "P" =
          some (PB.mk "/p" "com.example.I" "P" 1 true false 0 42) := by
        decide
      rw [h2] at hpb
      rw [← Option.some.inj hpb]
    · have h2 : propFind (BusB.mk [] [VT.mk "/p" 1 "com.example.I" false none 0] []
          [PB.mk "/p" "com.example.I" "P" 1 true false 0 42,
           PB.mk "/p" "com.example.I" "R" 1 true true 0 7] [] [] false 1 true
          (Except.error (-1)) 0) "/p" "com.example.I" "R" =
          some (PB.mk "/p" "com.example.I" "R" 1 true true 0 7) := by
        decide
      rw [h2] at hpb
      rw [← Option.some.inj hpb]
  refine ⟨rfl, hgood, ?_⟩
  exact ((c7_theorem (fun _ => true) 2
    (BusB.mk [] [VT.mk "/p" 1 "com.example.I" false none 0] []
      [PB.mk "/p" "com.example.I" "P" 1 true false 0 42,
       PB.mk "/p" "com.example.I" "R" 1 true true 0 7] [] [] false 1 true
      (Except.error (-1)) 0) "/p" "com.example.I" ["P", "R"]
    (VT.mk "/p" 1 "com.example.I" false none 0) rfl rfl rfl (by decide)
    hgood).1 hec).trans (by decide)

/-- Error codes produced by the first pass over the name list are never
positive. -/
theorem pass1Names_err_le (memberValid : String → Bool) (b : BusB) (pfx intf : String)
    (c : VT) (ns : List String) :
    ∀ (hi hc : Bool) (acc : List (String × Nat)) (e : Int),
    pass1Names memberValid b pfx intf c ns hi hc acc = Except.error e → e ≤ 0 := by
  induction ns with
  | nil => intro hi hc acc e h; simp [pass1Names] at h
  | cons nm rest ih =>
    intro hi hc acc e h
    cases hmv : memberValid nm with
    | false =>
      simp only [pass1Names, hmv, Bool.not_false, if_true, Except.error.injEq] at h
      rw [← h]; decide
    | true =>
      simp only [pass1Names, hmv, Bool.not_true, Bool.false_eq_true, if_false] at h
      cases hpf : propFind b pfx intf nm with
      | none =>
        simp only [hpf, Except.error.injEq] at h
        rw [← h]; decide
      | some v =>
        simp only [hpf] at h
        cases hpv : v.parentVid != c.vid with
        | true =>
          simp only [hpv, if_true] at h
          exact ih _ _ _ _ h
        | false =>
          simp only [hpv, Bool.false_eq_true, if_false] at h
          cases hec : v.emitsChange with
          | false =>
            simp only [hec, Bool.not_false, if_true, Except.error.injEq] at h
            rw [← h]; decide
          | true =>
            simp only [hec, Bool.not_true, Bool.false_eq_true, if_false] at h
            cases hio : v.invalidateOnly with
            | true =>
              simp only [hio, if_true] at h
              exact ih _ _ _ _ h
            | false =>
              simp only [hio, Bool.false_eq_true, if_false] at h
              by_cases hg : v.getRet < 0
              · rw [if_pos hg] at h
                simp only [Except.error.injEq] at h
                rw [← h]; exact le_of_lt hg
              · rw [if_neg hg] at h
                cases hnm2 : b.nodesModified with
                | true =>
                  simp only [hnm2, if_true, Except.error.injEq] at h
                  rw [← h]
                | false =>
                  simp only [hnm2, Bool.false_eq_true, if_false] at h
                  exact ih _ _ _ _ h

/-- Error codes produced by the first pass over the vtable list are never
positive. -/
theorem pass1Vts_err_le (memberValid : String → Bool) (b : BusB)
    (pfx path intf : String) (rf : Bool) (names : List String) (vts : List VT) :
    ∀ (hi hc : Bool) (acc : List (String × Nat)) (e : Int),
    pass1Vts memberValid b pfx path intf rf names vts hi hc acc = Except.error e →
    e ≤ 0 := by
  induction vts with
  | nil => intro hi hc acc e h; simp [pass1Vts] at h
  | cons c rest ih =>
    intro hi hc acc e h
    cases hfb : rf && !c.isFallback with
    | true =>
      simp only [pass1Vts, hfb, if_true] at h
      exact ih _ _ _ _ h
    | false =>
      simp only [pass1Vts, hfb, Bool.false_eq_true, if_false] at h
      cases hif : c.interface != intf with
      | true =>
        simp only [hif, if_true] at h
        exact ih _ _ _ _ h
      | false =>
        simp only [hif, Bool.false_eq_true, if_false] at h
        by_cases hg : node_vtable_get_userdata c path < 0
        · rw [if_pos hg] at h
          simp only [Except.error.injEq] at h
          rw [← h]; exact le_of_lt hg
        · rw [if_neg hg] at h
          cases hnm2 : b.nodesModified with
          | true =>
            simp only [hnm2, if_true, Except.error.injEq] at h
            rw [← h]
          | false =>
            simp only [hnm2, Bool.false_eq_true, if_false] at h
            cases hz : node_vtable_get_userdata c path == 0 with
            | true =>
              simp only [hz, if_true] at h
              exact ih _ _ _ _ h
            | false =>
              simp only [hz, Bool.false_eq_true, if_false] at h
              cases hp1 : pass1Names memberValid b pfx intf c names hi hc acc with
              | error e1 =>
                simp only [hp1, Except.error.injEq] at h
                rw [← h]
                exact pass1Names_err_le memberValid b pfx intf c names hi hc acc e1 hp1
              | ok trip =>
                simp only [hp1] at h
                exact ih _ _ _ _ h

/-- Error codes produced by the second (invalidation) pass are never
positive. -/
theorem pass2Vts_err_le (b : BusB) (pfx path intf : String) (rf : Bool)
    (names : List String) (vts : List VT) :
    ∀ (e : Int), pass2Vts b pfx path intf rf names vts = Except.error e → e ≤ 0 := by
  induction vts with
  | nil => intro e h; simp [pass2Vts] at h
  | cons c rest ih =>
    intro e h
    cases hfb : rf && !c.isFallback with
    | true =>
      simp only [pass2Vts, hfb, if_true] at h
      exact ih _ h
    | false =>
      simp only [pass2Vts, hfb, Bool.false_eq_true, if_false] at h
      cases hif : c.interface != intf with
      | true =>
        simp only [hif, if_true] at h
        exact ih _ h
      | false =>
        simp only [hif, Bool.false_eq_true, if_false] at h
        by_cases hg : node_vtable_get_userdata c path < 0
        · rw [if_pos hg] at h
          simp only [Except.error.injEq] at h
          rw [← h]; exact le_of_lt hg
        · rw [if_neg hg] at h
          cases hnm2 : b.nodesModified with
          | true =>
            simp only [hnm2, if_true, Except.error.injEq] at h
            rw [← h]
          | false =>
            simp only [hnm2, Bool.false_eq_true, if_false] at h
            cases hz : node_vtable_get_userdata c path == 0 with
            | true =>
              simp only [hz, if_true] at h
              exact ih _ h
            | false =>
              simp only [hz, Bool.false_eq_true, if_false] at h
              cases hp2 : pass2Vts b pfx path intf rf names rest with
              | error e1 =>
                simp only [hp2, Except.error.injEq] at h
                rw [← h]
                exact ih _ hp2
              | ok tl =>
                simp only [hp2] at h
                exact absurd h (by simp)

/-- When `emit_properties_changed_on_interface` returns 1, it sent a signal. -/
theorem emit_sig_of_one (memberValid : String → Bool) (b : BusB)
    (pfx path intf : String) (rf : Bool) (names : List String)
    (h : (emit_properties_changed_on_interface memberValid b pfx path intf rf
      names).1 = 1) :
    (emit_properties_changed_on_interface memberValid b pfx path intf rf
      names).2.toList ≠ [] := by
  cases ha : nodeAnchored b pfx with
  | false =>
    simp only [emit_properties_changed_on_interface, ha, Bool.not_false, if_true] at h
    exact absurd h (by decide)
  | true =>
    simp only [emit_properties_changed_on_interface, ha, Bool.not_true,
      Bool.false_eq_true, if_false] at h ⊢
    cases hp1 : pass1Vts memberValid b pfx path intf rf names
        (b.vtables.filter (fun v => v.path == pfx)) false false [] with
    | error e =>
      simp only [hp1] at h
      have := pass1Vts_err_le memberValid b pfx path intf rf names
        (b.vtables.filter (fun v => v.path == pfx)) false false [] e hp1
      rw [h] at this
      exact absurd this (by decide)
    | ok trip =>
      obtain ⟨hi, hc, chg⟩ := trip
      simp only [hp1] at h ⊢
      cases hb : !hi && !hc with
      | true =>
        simp only [hb, if_true] at h
        exact absurd h (by decide)
      | false =>
        simp only [hb, Bool.false_eq_true, if_false] at h ⊢
        cases hhi : hi with
        | false =>
          simp only [hhi, Bool.false_eq_true, if_false] at h ⊢
          simp
        | true =>
          simp only [hhi, if_true] at h ⊢
          cases hp2 : pass2Vts b pfx path intf rf names
              (b.vtables.filter (fun v => v.path == pfx)) with
          | error e =>
            simp only [hp2] at h
            have := pass2Vts_err_le b pfx path intf rf names
              (b.vtables.filter (fun v => v.path == pfx)) e hp2
            rw [h] at this
            exact absurd this (by decide)
          | ok inv =>
            simp only [hp2] at h ⊢
            simp

/-- The trace discipline of the fallback-prefix scan when the tree is not
being modified: calls returning 0 fall through, the first nonzero result is
returned at once (it closes the trace), a result of 0 means every call
returned 0, and a result of 1 means a signal was sent. -/
theorem strv_fallback_trace (memberValid : String → Bool) (b : BusB)
    (path intf : String) (names : List String) (hmod : b.nodesModified = false)
    (pfxs : List String) :
    ((strv_fallback memberValid b path intf names pfxs).1 = 0 →
      ∀ x ∈ (strv_fallback memberValid b path intf names pfxs).2.2, x = 0) ∧
    ((strv_fallback memberValid b path intf names pfxs).1 ≠ 0 →
      ∃ l, (strv_fallback memberValid b path intf names pfxs).2.2 =
        l ++ [(strv_fallback memberValid b path intf names pfxs).1] ∧
        ∀ x ∈ l, x = 0) ∧
    ((strv_fallback memberValid b path intf names pfxs).1 = 1 →
      (strv_fallback memberValid b path intf names pfxs).2.1 ≠ []) := by
  induction pfxs with
  | nil =>
    refine ⟨fun _ x hx => absurd hx (by simp [strv_fallback]), ?_, ?_⟩
    · intro hne
      exact absurd (by simp [strv_fallback]) hne
    · intro h1
      have h01 : (0 : Int) = 1 := by simpa [strv_fallback] using h1
      exact absurd h01 (by decide)
  | cons pfx rest ih =>
    obtain ⟨ih0, ihne, ih1⟩ := ih
    cases h1 : (emit_properties_changed_on_interface memberValid b pfx path intf
        true names).1 != 0 with
    | true =>
      simp only [strv_fallback, h1, if_true]
      refine ⟨?_, ?_, ?_⟩
      · intro h0
        exact absurd h0 (bne_iff_ne.mp h1)
      · intro _
        exact ⟨[], rfl, by simp⟩
      · intro hone
        exact emit_sig_of_one memberValid b pfx path intf true names hone
    | false =>
      have hp0 : (emit_properties_changed_on_interface memberValid b pfx path intf
          true names).1 = 0 := by
        simpa using h1
      simp only [strv_fallback, h1, Bool.false_eq_true, if_false, hmod]
      refine ⟨?_, ?_, ?_⟩
      · intro h0 x hx
        rcases List.mem_cons.mp hx with hx | hx
        · rw [hx]; exact hp0
        · exact ih0 h0 x hx
      · intro hne
        obtain ⟨l, hl, hz⟩ := ihne hne
        refine ⟨(emit_properties_changed_on_interface memberValid b pfx path intf
          true names).1 :: l, ?_, ?_⟩
        · rw [hl]; rfl
        · intro x hx
          rcases List.mem_cons.mp hx with hx | hx
          · rw [hx]; exact hp0
          · exact hz x hx
      · intro hone hcontra
        rcases List.append_eq_nil.mp hcontra with ⟨_, h2⟩
        exact ih1 hone h2

/-- C2, counterexample: a single vtable registered at `/p` for the interface
matches (the node is anchored, the fallback filter passes, the userdata
resolves), yet emitting for the name `Q`, which has no property under that
vtable, makes `emit_properties_changed_on_interface` fail with `-ENOENT`,
which `sd_bus_emit_properties_changed_strv` returns — so `ENOENT` does not
imply that no vtable produced a match. -/
theorem c2_counterexample :
    sd_bus_emit_properties_changed_strv (fun _ => true) 3
      (BusB.mk [] [VT.mk "/p" 1 "com.example.I" false none 0] []
        [PB.mk "/p" "com.example.I" "P" 1 true false 0 42] [] [] false 1 true
        (Except.error (-1)) 0) "/p" "com.example.I" ["Q"] =
      some (-ENOENT, [], [-ENOENT]) ∧
    vtable_match_exists
      (BusB.mk [] [VT.mk "/p" 1 "com.example.I" false none 0] []
        [PB.mk "/p" "com.example.I" "P" 1 true false 0 42] [] [] false 1 true
        (Except.error (-1)) 0) "/p" "/p" "com.example.I" false = true := by
  exact ⟨by decide, by decide⟩

/-- C2 (amended): with a non-empty name list, when the call returns a result
`(r, sigs, tr)` (`tr` the trace of per-call results of
`emit_properties_changed_on_interface`): if `r = 1` then the successful call
was the last one performed — every earlier call returned 0 (no match) — and a
signal was sent; if `r = -ENOENT` then either every call returned 0 (no
prefix produced a match) or the first effective call itself failed with
`-ENOENT` (a named property was missing under a matching vtable). -/
theorem c2_theorem (memberValid : String → Bool) (fuel : Nat) (b : BusB)
    (path intf : String) (names : List String) (r : Int) (sigs : List SigMsg)
    (tr : List Int) (hne : names ≠ [])
    (h : sd_bus_emit_properties_changed_strv memberValid fuel b path intf names =
      some (r, sigs, tr)) :
    (r = 1 → (∃ l, tr = l ++ [1] ∧ ∀ x ∈ l, x = 0) ∧ sigs ≠ []) ∧
    (r = -ENOENT →
      (∀ x ∈ tr, x = 0) ∨ ∃ l, tr = l ++ [-ENOENT] ∧ ∀ x ∈ l, x = 0) := by
  have hne' : names.isEmpty = false := by
    cases names with
    | nil => exact absurd rfl hne
    | cons a t => rfl
  rw [sd_bus_emit_properties_changed_strv] at h
  simp only [hne', Bool.false_eq_true, if_false] at h
  cases fuel with
  | zero => simp [strv_attempts] at h
  | succ f =>
    have hmod0 : ({b with nodesModified := false} : BusB).nodesModified = false := rfl
    cases h1 : (emit_properties_changed_on_interface memberValid
        {b with nodesModified := false} path path intf false names).1 != 0 with
    | true =>
      simp only [strv_attempts, h1, if_true, Option.some.injEq, Prod.mk.injEq] at h
      obtain ⟨hr, hs, ht⟩ := h
      constructor
      · intro hr1
        refine ⟨⟨[], ?_, by simp⟩, ?_⟩
        · rw [← ht, hr, hr1]; rfl
        · rw [← hs]
          exact emit_sig_of_one memberValid {b with nodesModified := false}
            path path intf false names (by rw [hr, hr1])
      · intro hrE
        right
        refine ⟨[], ?_, by simp⟩
        rw [← ht, hr, hrE]
        rfl
    | false =>
      have hp0 : (emit_properties_changed_on_interface memberValid
          {b with nodesModified := false} path path intf false names).1 = 0 := by
        simpa using h1
      simp only [strv_attempts, h1, Bool.false_eq_true, if_false, hmod0] at h
      obtain ⟨t0, tne, t1s⟩ := strv_fallback_trace memberValid
        {b with nodesModified := false} path intf names rfl (pathPrefixes path)
      cases h2 : (strv_fallback memberValid {b with nodesModified := false} path
          intf names (pathPrefixes path)).1 != 0 with
      | true =>
        simp only [h2, if_true, Option.some.injEq, Prod.mk.injEq] at h
        obtain ⟨hr, hs, ht⟩ := h
        obtain ⟨l, hl, hz⟩ := tne (bne_iff_ne.mp h2)
        have htr : tr = ((emit_properties_changed_on_interface memberValid
            {b with nodesModified := false} path path intf false names).1 :: l) ++
            [(strv_fallback memberValid {b with nodesModified := false} path intf
              names (pathPrefixes path)).1] := by
          rw [← ht, hl]
          rfl
        constructor
        · intro hr1
          refine ⟨⟨(emit_properties_changed_on_interface memberValid
              {b with nodesModified := false} path path intf false names).1 :: l,
              ?_, ?_⟩, ?_⟩
          · rw [htr, hr, hr1]
          · intro x hx
            rcases List.mem_cons.mp hx with hx | hx
            · rw [hx]; exact hp0
            · exact hz x hx
          · intro hcontra
            rw [← hs] at hcontra
            rcases List.append_eq_nil.mp hcontra with ⟨_, hnil⟩
            exact t1s (by rw [hr, hr1]) hnil
        · intro hrE
          right
          refine ⟨(emit_properties_changed_on_interface memberValid
              {b with nodesModified := false} path path intf false names).1 :: l,
              ?_, ?_⟩
          · rw [htr, hr, hrE]
          · intro x hx
            rcases List.mem_cons.mp hx with hx | hx
            · rw [hx]; exact hp0
            · exact hz x hx
      | false =>
        have ht0 : (strv_fallback memberValid {b with nodesModified := false} path
            intf names (pathPrefixes path)).1 = 0 := by
          simpa using h2
        simp only [h2, Bool.false_eq_true, if_false, hmod0, Option.some.injEq,
          Prod.mk.injEq] at h
        obtain ⟨hr, _, ht⟩ := h
        constructor
        · intro hr1
          rw [← hr] at hr1
          exact absurd hr1 (by decide)
        · intro _
          left
          intro x hx
          rw [← ht] at hx
          rcases List.mem_cons.mp hx with hx | hx
          · rw [hx]; exact hp0
          · exact t0 ht0 x hx

/-- C2, witness: one vtable at `/p` with property `P` (`EMITS_CHANGE`);
emitting for `["P"]` succeeds on the first call, so the trace is `[1]`, the
zero-prefix decomposition is trivial, and a signal was sent. -/
theorem c2_witness :
    (["P"] : List String) ≠ [] ∧
    sd_bus_emit_properties_changed_strv (fun _ => true) 1
      (BusB.mk [] [VT.mk "/p" 1 "com.example.I" false none 0] []
        [PB.mk "/p" "com.example.I" "P" 1 true false 0 42] [] [] false 1 true
        (Except.error (-1)) 0) "/p" "com.example.I" ["P"] =
      some (1, [SigMsg.mk "com.example.I" [("P", 42)] []], [1]) ∧
    ((∃ l : List Int, ([1] : List Int) = l ++ [1] ∧ ∀ x ∈ l, x = 0) ∧
      ([SigMsg.mk "com.example.I" [("P", 42)] []] : List SigMsg) ≠ []) := by
  refine ⟨by decide, by decide, ?_⟩
  exact (c2_theorem (fun _ => true) 1
    (BusB.mk [] [VT.mk "/p" 1 "com.example.I" false none 0] []
      [PB.mk "/p" "com.example.I" "P" 1 true false 0 42] [] [] false 1 true
      (Except.error (-1)) 0) "/p" "com.example.I" ["P"] 1
    [SigMsg.mk "com.example.I" [("P", 42)] []] [1] (by decide) (by decide)).1 rfl

end BusObjects
